/-
Verification of the query-normalization, conversation-store and chart-pipeline
core of the ainsight backend (src/backend/app.py).

The Python source is shallowly embedded: strings are Lean `String`s (operated
on through their `List Char` data), the two regular expressions used by
`ensure_limit` (`\bLIMIT\s+\d+\b` and `^\s*SELECT\b`) are modelled by
executable character-level matchers, the SQLite tables are lists of records,
and the external collaborators (LLM completion, query generation, query
execution, `json.loads`, `uuid`) are taken as function parameters.  Character
classes (`\w`, `\s`, `str.strip`, `str.lower`) are modelled at ASCII fidelity,
matching the ASCII query/markdown text this code manipulates.
-/
import Mathlib

namespace AinsightSpec

/-! ### Character utilities (Python `\s`, `\w`, `str.strip`, `str.lower`) -/

/-- Python regex `\s` / `str.strip` whitespace (ASCII range). -/
def isSpaceChar (c : Char) : Bool :=
  c = ' ' || c = '\t' || c = '\n' || c = '\r' || c = '\x0b' || c = '\x0c'

/-- Python regex `\w` word character (ASCII range): letter, digit or underscore. -/
def isWordChar (c : Char) : Bool :=
  c.isAlpha || c.isDigit || c = '_'

/-- The backtick character (written via its code point to keep it out of the text). -/
def btick : Char := Char.ofNat 96

/-- The single-quote character. -/
def squote : Char := Char.ofNat 39

/-- The double-quote character. -/
def dquote : Char := Char.ofNat 34

/-- Left curly brace. -/
def lbrace : Char := Char.ofNat 123

/-- Right curly brace. -/
def rbrace : Char := Char.ofNat 125

/-- `str.strip()` on the left: drop leading whitespace. -/
def dropLeadWS (l : List Char) : List Char := l.dropWhile isSpaceChar

/-- `str.strip()` on the right: drop trailing whitespace. -/
def dropTrailWS (l : List Char) : List Char :=
  ((l.reverse).dropWhile isSpaceChar).reverse

/-- Python `str.strip()` (no arguments): remove leading and trailing whitespace. -/
def pyStrip (l : List Char) : List Char := dropTrailWS (dropLeadWS l)

/-! ### Decimal rendering of a natural number (Python `str(int(n))`),
fuel-structured so that it evaluates inside the kernel. -/

/-- Digit character for `k < 10`. -/
def digitChar10 (k : Nat) : Char := Char.ofNat (48 + k)

/-- Decimal digits of `n`, most significant first; `fuel` bounds the recursion. -/
def natDigitsAux : Nat → Nat → List Char
  | 0, _ => []
  | fuel + 1, n =>
    if n < 10 then [digitChar10 n]
    else natDigitsAux fuel (n / 10) ++ [digitChar10 (n % 10)]

/-- Decimal rendering of `n`, as Python `str(int(n))` produces it. -/
def natDigits (n : Nat) : List Char := natDigitsAux (n + 1) n

/-! ### The regex `\bLIMIT\s+\d+\b` (searched with `re.IGNORECASE`) -/

/-- Boundary condition `\b` in front of a word character: the previous
character (if any) is not a word character. -/
def boundaryBefore : Option Char → Bool
  | none => true
  | some p => !(isWordChar p)

/-- `\b` after a digit: the next character (if any) is not a word character. -/
def boundaryAfterDigits : List Char → Bool
  | [] => true
  | e :: _ => !(isWordChar e)

/-- The part `\d+\b` of the LIMIT regex: at least one digit, then a boundary. -/
def digitsThenBoundary : List Char → Bool
  | [] => false
  | d :: ds => d.isDigit && boundaryAfterDigits ((d :: ds).dropWhile Char.isDigit)

/-- The part `\s+\d+\b` of the LIMIT regex.  `\s`, `\d` and `\w` are pairwise
arranged so that the greedy deterministic reading used here coincides with the
backtracking regex semantics. -/
def afterLimitMatches : List Char → Bool
  | [] => false
  | c :: rest => isSpaceChar c && digitsThenBoundary (rest.dropWhile isSpaceChar)

/-- Match the keyword characters (case-insensitively) and then the rest of the
LIMIT pattern. -/
def matchKw : List Char → List Char → Bool
  | [], rest => afterLimitMatches rest
  | _ :: _, [] => false
  | k :: ks, c :: cs => (c.toLower = k) && matchKw ks cs

/-- Does `\bLIMIT\s+\d+\b` match starting exactly at the head of `l`, with
`prev` the character just before that position? -/
def limitMatchAt (prev : Option Char) (l : List Char) : Bool :=
  boundaryBefore prev && matchKw ['l', 'i', 'm', 'i', 't'] l

/-- `re.search(r"\bLIMIT\s+\d+\b", ·, re.IGNORECASE)`: does the pattern match
at some position? -/
def searchLimit : Option Char → List Char → Bool
  | _, [] => false
  | prev, c :: rest => limitMatchAt prev (c :: rest) || searchLimit (some c) rest

/-- Number of positions at which `\bLIMIT\s+\d+\b` matches (the count of
`LIMIT <number>` clauses of a text). -/
def countLimit : Option Char → List Char → Nat
  | _, [] => 0
  | prev, c :: rest =>
    (if limitMatchAt prev (c :: rest) then 1 else 0) + countLimit (some c) rest

/-! ### The regex `^\s*SELECT\b` (matched with `re.IGNORECASE`) -/

/-- `re.match(r"^\s*SELECT\b", ·, re.IGNORECASE)`. -/
def matchesSelect (l : List Char) : Bool :=
  match l.dropWhile isSpaceChar with
  | s :: e :: l2 :: e2 :: c :: t :: rest =>
    (s.toLower = 's' && e.toLower = 'e' && l2.toLower = 'l' &&
     e2.toLower = 'e' && c.toLower = 'c' && t.toLower = 't') &&
      (match rest with
       | [] => true
       | r :: _ => !(isWordChar r))
  | _ => false

/-! ### `ensure_limit` (app.py:1059) -/

/-- The characters `" LIMIT "` appended between the query body and the number. -/
def limitSep : List Char := [' ', 'L', 'I', 'M', 'I', 'T', ' ']

/--
`ensure_limit(query, default_limit)` (app.py:1059-1078): strip the query,
set aside a trailing semicolon, return the input unchanged when a
`LIMIT <number>` is already present or the text is not a SELECT, and otherwise
append `LIMIT <default_limit>` before the semicolon.  (The `isinstance` guard
and the `except` fallback of the source return the input unchanged; both are
unreachable for the always-string, never-throwing operations modelled here.)
-/
def ensure_limit (query : List Char) (default_limit : Nat) : List Char :=
  let q := pyStrip query
  let hasSemicolon : Bool := q.getLast? = some ';'
  let q1 := if hasSemicolon then q.dropLast else q
  if searchLimit none q1 then query
  else if matchesSelect q1 then
    (q1 ++ limitSep ++ natDigits default_limit) ++
      (if hasSemicolon then [';'] else [])
  else query

/-! ### `_strip_query_fences` (app.py:1082) -/

/-- Python `s.replace(three-backticks, empty)`: remove every (left-to-right,
non-overlapping) occurrence of three consecutive backticks. -/
def removeTripleBackticks : List Char → List Char
  | [] => []
  | [c] => [c]
  | [c, d] => [c, d]
  | c :: d :: e :: rest =>
    if c = btick && d = btick && e = btick then removeTripleBackticks rest
    else c :: removeTripleBackticks (d :: e :: rest)

/-- Does the list start with three backticks (`s.startswith` of the fence)? -/
def startsWithFence : List Char → Bool
  | c :: d :: e :: _ => c = btick && d = btick && e = btick
  | _ => false

/-- First four characters lowercase to "noql"? (`s[:4].lower() == 'noql'`) -/
def startsNoql : List Char → Bool
  | a :: b :: c :: d :: _ =>
    a.toLower = 'n' && b.toLower = 'o' && c.toLower = 'q' && d.toLower = 'l'
  | _ => false

/-- First three characters lowercase to "sql"? (`s[:3].lower() == 'sql'`) -/
def startsSql : List Char → Bool
  | a :: b :: c :: _ => a.toLower = 's' && b.toLower = 'q' && c.toLower = 'l'
  | _ => false

/-- Surrounding-quote test of `_strip_query_fences`: at least two characters
and the first and last are both `"` or both `'`. -/
def hasSurroundingQuotes (l : List Char) : Bool :=
  match l, l.getLast? with
  | a :: _ :: _, some z =>
    (a = dquote && z = dquote) || (a = squote && z = squote)
  | _, _ => false

/--
`_strip_query_fences` body on a string (app.py:1082-1107): strip, remove one
layer of backtick fencing with an optional `noql`/`sql` language tag, delete
remaining triple backticks, strip, and peel one layer of surrounding quotes.
-/
def stripQueryFencesCore (q : List Char) : List Char :=
  let s := pyStrip q
  let s :=
    if startsWithFence s then
      let s1 := s.dropWhile (· = btick)
      if startsNoql s1 then dropLeadWS (s1.drop 4)
      else if startsSql s1 then dropLeadWS (s1.drop 3)
      else s1
    else s
  let s := pyStrip (removeTripleBackticks s)
  if hasSurroundingQuotes s then pyStrip (s.drop 1).dropLast else s

/-- `_strip_query_fences` on Lean strings (the non-string coercion is handled
by the `PyObj` variant below). -/
def _strip_query_fences (q : String) : String :=
  ⟨stripQueryFencesCore q.data⟩

/-! ### `normalize_query` (app.py:1110) -/

/-- `normalize_query(query, limit)`: strip fences, then enforce the LIMIT. -/
def normalize_query (query : String) (limit : Nat) : String :=
  ⟨ensure_limit (_strip_query_fences query).data limit⟩

/-! ### Views of the text that `ensure_limit` actually inspects -/

/-- Whether `ensure_limit` sees a trailing semicolon on its stripped input. -/
def elSemi (query : List Char) : Bool := (pyStrip query).getLast? = some ';'

/-- The exact text on which `ensure_limit` runs its two regexes. -/
def elBody (query : List Char) : List Char :=
  if elSemi query then (pyStrip query).dropLast else pyStrip query

/-- The fence-stripped, whitespace-stripped text of `q`, exactly as
`ensure_limit` recomputes it inside `normalize_query`. -/
def fencedClean (q : String) : List Char := pyStrip (_strip_query_fences q).data

/-- Whether the cleaned text carries a trailing semicolon. -/
def semiFlag (q : String) : Bool := elSemi (_strip_query_fences q).data

/-- The cleaned text with its trailing semicolon (if any) set aside: the exact
text on which `ensure_limit` runs its two regexes. -/
def limitBody (q : String) : List Char := elBody (_strip_query_fences q).data

/-! ### Facts about decimal digits -/

theorem digitChar10_isDigit {k : Nat} (h : k < 10) :
    (digitChar10 k).isDigit = true := by
  interval_cases k <;> decide

theorem digitChar10_not_space {k : Nat} (h : k < 10) :
    isSpaceChar (digitChar10 k) = false := by
  interval_cases k <;> decide

theorem digitChar10_lower_ne_l {k : Nat} (h : k < 10) :
    ¬((digitChar10 k).toLower = 'l') := by
  interval_cases k <;> decide

theorem digitChar10_ne_semi {k : Nat} (h : k < 10) :
    ¬(digitChar10 k = ';') := by
  interval_cases k <;> decide

theorem natDigitsAux_mem {fuel n : Nat} {c : Char} (h : c ∈ natDigitsAux fuel n) :
    ∃ k, k < 10 ∧ c = digitChar10 k := by
  induction fuel generalizing n with
  | zero => simp [natDigitsAux] at h
  | succ fuel ih =>
    rw [natDigitsAux] at h
    by_cases h10 : n < 10
    · simp [h10] at h
      exact ⟨n, h10, h⟩
    · simp [h10, List.mem_append] at h
      rcases h with h | h
      · exact ih h
      · exact ⟨n % 10, Nat.mod_lt _ (by norm_num), h⟩

theorem natDigits_mem {n : Nat} {c : Char} (h : c ∈ natDigits n) :
    ∃ k, k < 10 ∧ c = digitChar10 k := natDigitsAux_mem h

theorem natDigits_ne_nil (n : Nat) : natDigits n ≠ [] := by
  rw [natDigits, natDigitsAux]
  by_cases h10 : n < 10 <;> simp [h10]

/-! ### Computation lemmas for the LIMIT regex on the appended clause -/

/-- Lists of decimal digit characters. -/
def AllDigits (ds : List Char) : Prop :=
  ∀ c ∈ ds, ∃ k, k < 10 ∧ c = digitChar10 k

/-- The optional text after the appended number: nothing, or one semicolon. -/
def GoodTail (t : List Char) : Prop := t = [] ∨ t = [';']

theorem afterLimitMatches_space_digits {ds t : List Char} (hne : ds ≠ [])
    (hds : AllDigits ds) (ht : GoodTail t) :
    afterLimitMatches (' ' :: (ds ++ t)) = true := by
  obtain ⟨d, ds', rfl⟩ : ∃ d ds', ds = d :: ds' := by
    cases ds with
    | nil => exact absurd rfl hne
    | cons d ds' => exact ⟨d, ds', rfl⟩
  obtain ⟨k, hk, rfl⟩ := hds _ (List.mem_cons_self _ _)
  have hds' : ∀ c ∈ digitChar10 k :: ds', Char.isDigit c = true := by
    intro c hc
    obtain ⟨k', hk', rfl⟩ := hds c hc
    exact digitChar10_isDigit hk'
  rw [afterLimitMatches]
  rw [List.cons_append, List.dropWhile_cons_of_neg
    (by simp [digitChar10_not_space hk]), digitsThenBoundary]
  have key : List.dropWhile Char.isDigit (digitChar10 k :: (ds' ++ t))
      = t.dropWhile Char.isDigit := by
    rw [← List.cons_append]
    exact List.dropWhile_append_of_pos hds'
  rw [key]
  rcases ht with rfl | rfl
  · simp [digitChar10_isDigit hk, boundaryAfterDigits, isSpaceChar]
  · simp [digitChar10_isDigit hk, boundaryAfterDigits, isSpaceChar,
      List.dropWhile, isWordChar]

theorem matchKw_limit (rest : List Char) :
    matchKw ['l', 'i', 'm', 'i', 't'] ('L' :: 'I' :: 'M' :: 'I' :: 'T' :: rest)
      = afterLimitMatches rest := by
  simp [matchKw]

theorem limitMatchAt_after_space (rest : List Char) :
    limitMatchAt (some ' ') ('L' :: 'I' :: 'M' :: 'I' :: 'T' :: rest)
      = afterLimitMatches rest := by
  rw [limitMatchAt, matchKw_limit]
  simp [boundaryBefore, isWordChar]

theorem searchLimit_append_true {ds t : List Char} (hne : ds ≠ [])
    (hds : AllDigits ds) (ht : GoodTail t) (A : List Char) (p : Option Char) :
    searchLimit p (A ++ (' ' :: 'L' :: 'I' :: 'M' :: 'I' :: 'T' :: ' ' :: (ds ++ t)))
      = true := by
  induction A generalizing p with
  | nil =>
    rw [List.nil_append, searchLimit, searchLimit, limitMatchAt_after_space,
      afterLimitMatches_space_digits hne hds ht]
    simp
  | cons a A' ih =>
    rw [List.cons_append, searchLimit, ih (some a)]
    simp

/-! ### No new LIMIT match is created in front of the appended clause -/

theorem digitsThenBoundary_append_false {b : Char} {brest : List Char}
    {l : List Char} (h : digitsThenBoundary l = false) :
    digitsThenBoundary (l ++ (' ' :: b :: brest)) = false := by
  cases l with
  | nil =>
    rw [List.nil_append, digitsThenBoundary]
    rw [List.dropWhile_cons_of_neg (by simp)]
    simp [boundaryAfterDigits, isWordChar, isSpaceChar]
  | cons d r1 =>
    rw [digitsThenBoundary] at h
    rw [List.cons_append, digitsThenBoundary]
    by_cases hdig : Char.isDigit d = true
    · simp only [hdig, Bool.true_and] at h ⊢
      obtain ⟨e, r2, he⟩ : ∃ e r2,
          (d :: r1).dropWhile Char.isDigit = e :: r2 := by
        cases hdw : (d :: r1).dropWhile Char.isDigit with
        | nil => rw [hdw] at h; simp [boundaryAfterDigits] at h
        | cons e r2 => exact ⟨e, r2, rfl⟩
      have hne : ¬((d :: r1).dropWhile Char.isDigit).isEmpty = true := by
        rw [he]; simp
      rw [show (d :: (r1 ++ ' ' :: b :: brest)) = ((d :: r1) ++ ' ' :: b :: brest)
          from rfl, List.dropWhile_append, if_neg hne, he]
      rw [he] at h
      rw [List.cons_append]
      rw [boundaryAfterDigits] at h ⊢
      exact h
    · simp [hdig]

theorem afterLimitMatches_append_false {b : Char} {brest : List Char}
    (hb1 : isSpaceChar b = false) (hb2 : Char.isDigit b = false)
    {l : List Char} (h : afterLimitMatches l = false) :
    afterLimitMatches (l ++ (' ' :: b :: brest)) = false := by
  cases l with
  | nil =>
    rw [List.nil_append, afterLimitMatches]
    rw [List.dropWhile_cons_of_neg (by simp [hb1])]
    simp [digitsThenBoundary, hb2]
  | cons c rest =>
    rw [afterLimitMatches] at h
    rw [List.cons_append, afterLimitMatches]
    by_cases hc : isSpaceChar c = true
    · simp only [hc, Bool.true_and] at h ⊢
      rw [List.dropWhile_append]
      by_cases hrest : (rest.dropWhile isSpaceChar).isEmpty
      · -- everything in `rest` is whitespace; the appended part supplies `' ' :: b`
        simp only [hrest, if_true]
        rw [List.dropWhile_cons_of_pos (by simp [isSpaceChar]),
          List.dropWhile_cons_of_neg (by simp [hb1])]
        simp [digitsThenBoundary, hb2]
      · simp only [hrest, if_false]
        exact digitsThenBoundary_append_false h
    · simp only [Bool.not_eq_true] at hc
      simp [hc]

theorem matchKw_append_false {b : Char} {brest : List Char}
    (hb1 : isSpaceChar b = false) (hb2 : Char.isDigit b = false) :
    ∀ (l ks : List Char), (∀ k ∈ ks, ¬(Char.toLower ' ' = k)) →
      matchKw ks l = false → matchKw ks (l ++ (' ' :: b :: brest)) = false := by
  intro l
  induction l with
  | nil =>
    intro ks hks h
    cases ks with
    | nil =>
      rw [matchKw] at h ⊢
      exact afterLimitMatches_append_false hb1 hb2 h
    | cons k ks' =>
      rw [List.nil_append, matchKw]
      have hk : ¬(Char.toLower ' ' = k) := hks k (List.mem_cons_self _ _)
      have hsp : Char.toLower ' ' = ' ' := by decide
      rw [hsp] at hk
      simp [hk]
  | cons c cs ih =>
    intro ks hks h
    cases ks with
    | nil =>
      rw [matchKw] at h ⊢
      exact afterLimitMatches_append_false hb1 hb2 h
    | cons k ks' =>
      rw [matchKw] at h
      rw [List.cons_append, matchKw]
      by_cases hck : Char.toLower c = k
      · simp only [hck, decide_True, Bool.true_and] at h ⊢
        exact ih ks' (fun k' hk' => hks k' (List.mem_cons_of_mem _ hk')) h
      · simp [hck]

theorem limitMatchAt_append_false {b : Char} {brest : List Char}
    (hb1 : isSpaceChar b = false) (hb2 : Char.isDigit b = false)
    {p : Option Char} {l : List Char} (h : limitMatchAt p l = false) :
    limitMatchAt p (l ++ (' ' :: b :: brest)) = false := by
  rw [limitMatchAt] at h ⊢
  by_cases hp : boundaryBefore p = true
  · simp only [hp, Bool.true_and] at h ⊢
    refine matchKw_append_false hb1 hb2 l _ ?_ h
    intro k hk
    fin_cases hk <;> decide
  · simp only [Bool.not_eq_true] at hp
    simp [hp]

/-! ### Counting LIMIT clauses -/

theorem countLimit_zero_of_no_l {l : List Char}
    (h : ∀ c ∈ l, ¬(Char.toLower c = 'l')) (p : Option Char) :
    countLimit p l = 0 := by
  induction l generalizing p with
  | nil => rw [countLimit]
  | cons c rest ih =>
    rw [countLimit]
    have hc : ¬(Char.toLower c = 'l') := h c (List.mem_cons_self _ _)
    have hm : limitMatchAt p (c :: rest) = false := by
      rw [limitMatchAt, matchKw]
      simp [hc]
    rw [hm]
    simp [ih (fun c' hc' => h c' (List.mem_cons_of_mem _ hc'))]

theorem countLimit_appended_clause {ds t : List Char} (hne : ds ≠ [])
    (hds : AllDigits ds) (ht : GoodTail t) (p : Option Char) :
    countLimit p (' ' :: 'L' :: 'I' :: 'M' :: 'I' :: 'T' :: ' ' :: (ds ++ t))
      = 1 := by
  rw [countLimit]
  have h0 : limitMatchAt p
      (' ' :: 'L' :: 'I' :: 'M' :: 'I' :: 'T' :: ' ' :: (ds ++ t)) = false := by
    rw [limitMatchAt, matchKw]
    simp
  rw [h0, countLimit, limitMatchAt_after_space,
    afterLimitMatches_space_digits hne hds ht]
  have htail : countLimit (some 'L')
      ('I' :: 'M' :: 'I' :: 'T' :: ' ' :: (ds ++ t)) = 0 := by
    refine countLimit_zero_of_no_l ?_ _
    intro c hc
    simp only [List.mem_cons] at hc
    rcases hc with rfl | rfl | rfl | rfl | rfl | hc
    · decide
    · decide
    · decide
    · decide
    · decide
    · rw [List.mem_append] at hc
      rcases hc with hc | hc
      · obtain ⟨k, hk, rfl⟩ := hds c hc
        exact digitChar10_lower_ne_l hk
      · rcases ht with rfl | rfl
        · simp at hc
        · simp only [List.mem_singleton] at hc
          subst hc; decide
  rw [htail]
  simp

theorem countLimit_append_one {ds t : List Char} (hne : ds ≠ [])
    (hds : AllDigits ds) (ht : GoodTail t) :
    ∀ (A : List Char) (p : Option Char), searchLimit p A = false →
      countLimit p (A ++ (' ' :: 'L' :: 'I' :: 'M' :: 'I' :: 'T' :: ' ' :: (ds ++ t)))
        = 1 := by
  intro A
  induction A with
  | nil =>
    intro p _
    rw [List.nil_append]
    exact countLimit_appended_clause hne hds ht p
  | cons a A' ih =>
    intro p h
    rw [searchLimit, Bool.or_eq_false_iff] at h
    rw [List.cons_append, countLimit]
    have hext : limitMatchAt p
        ((a :: A') ++ (' ' :: 'L' :: 'I' :: 'M' :: 'I' :: 'T' :: ' ' :: (ds ++ t)))
          = false :=
      limitMatchAt_append_false (b := 'L') (by decide) (by decide) h.1
    rw [List.cons_append] at hext
    rw [hext]
    simp [ih (some a) h.2]

/-! ### Facts about `pyStrip` -/

theorem head?_dropWhile_false {p : α → Bool} {l : List α} {c : α}
    (h : (l.dropWhile p).head? = some c) : p c = false := by
  have := List.head?_dropWhile_not p l
  rw [h] at this
  exact this

theorem pyStrip_head {l : List Char} {c : Char}
    (h : (pyStrip l).head? = some c) : isSpaceChar c = false := by
  rw [pyStrip] at h
  set x := dropLeadWS l with hx
  have hpre : dropTrailWS x <+: x := by
    have hsuf : x.reverse.dropWhile isSpaceChar <:+ x.reverse :=
      List.dropWhile_suffix _
    have := (List.reverse_prefix).mpr hsuf
    rwa [List.reverse_reverse] at this
  obtain ⟨t, ht⟩ := hpre
  have : x.head? = some c := by
    rw [← ht, List.head?_append, h]
    rfl
  exact head?_dropWhile_false (p := isSpaceChar) (l := l) this

theorem pyStrip_getLast {l : List Char} {c : Char}
    (h : (pyStrip l).getLast? = some c) : isSpaceChar c = false := by
  rw [pyStrip, List.getLast?_eq_head?_reverse, dropTrailWS,
    List.reverse_reverse] at h
  exact head?_dropWhile_false h

theorem pyStrip_eq_self {l : List Char}
    (h1 : ∀ c, l.head? = some c → isSpaceChar c = false)
    (h2 : ∀ c, l.getLast? = some c → isSpaceChar c = false) :
    pyStrip l = l := by
  have hlead : dropLeadWS l = l := by
    cases l with
    | nil => rfl
    | cons c r =>
      rw [dropLeadWS, List.dropWhile_cons_of_neg]
      simp [h1 c rfl]
  rw [pyStrip, hlead, dropTrailWS]
  cases hrev : l.reverse with
  | nil =>
    have : l = [] := by simpa using congrArg List.reverse hrev
    simp [this]
  | cons c r =>
    have hc : l.getLast? = some c := by
      rw [List.getLast?_eq_head?_reverse, hrev]; rfl
    rw [List.dropWhile_cons_of_neg (by simp [h2 c hc])]
    rw [← hrev, List.reverse_reverse]

/-! ### Branch characterization of `ensure_limit` -/

theorem ensure_limit_cases (query : List Char) (n : Nat) :
    ensure_limit query n =
      if searchLimit none (elBody query) then query
      else if matchesSelect (elBody query) then
        (elBody query ++ limitSep ++ natDigits n) ++
          (if elSemi query then [';'] else [])
      else query := rfl

theorem elBody_head {query : List Char} {c : Char}
    (h : (elBody query).head? = some c) : isSpaceChar c = false := by
  rw [elBody] at h
  by_cases hs : elSemi query = true
  · rw [if_pos hs] at h
    have hne : pyStrip query ≠ [] := by
      intro hnil
      rw [elSemi, hnil] at hs
      simp at hs
    have hx : (pyStrip query).dropLast ++
        [(pyStrip query).getLast hne] = pyStrip query :=
      List.dropLast_append_getLast hne
    refine pyStrip_head (l := query) ?_
    rw [← hx, List.head?_append, h]
    rfl
  · rw [if_neg hs] at h
    exact pyStrip_head h

theorem matchesSelect_ne_nil {l : List Char} (h : matchesSelect l = true) :
    l ≠ [] := by
  intro hnil
  rw [hnil] at h
  simp [matchesSelect, List.dropWhile] at h

/-- A successful `^\s*SELECT\b` match survives appending text that begins with
a space (the boundary after `SELECT` can only become easier to satisfy). -/
theorem matchesSelect_append_space {l : List Char} (h : matchesSelect l = true)
    (Y : List Char) : matchesSelect (l ++ ' ' :: Y) = true := by
  rw [matchesSelect] at h
  rw [matchesSelect, List.dropWhile_append]
  cases hdw : l.dropWhile isSpaceChar with
  | nil => rw [hdw] at h; simp at h
  | cons s rest1 =>
    rw [hdw] at h
    simp only [hdw, List.isEmpty_cons, if_false, Bool.false_eq_true]
    cases rest1 with
    | nil => simp at h
    | cons e rest2 =>
      cases rest2 with
      | nil => simp at h
      | cons l2 rest3 =>
        cases rest3 with
        | nil => simp at h
        | cons e2 rest4 =>
          cases rest4 with
          | nil => simp at h
          | cons c0 rest5 =>
            cases rest5 with
            | nil => simp at h
            | cons t0 rest0 =>
              simp only [List.cons_append]
              rw [Bool.and_eq_true] at h
              rw [Bool.and_eq_true]
              refine ⟨h.1, ?_⟩
              cases rest0 with
              | nil => simp [isWordChar, isSpaceChar]
              | cons r rr => exact h.2

/-! ### The appended `LIMIT` clause, assembled -/

theorem searchLimit_appended (q1 : List Char) (n : Nat) :
    searchLimit none (q1 ++ limitSep ++ natDigits n) = true := by
  have h := searchLimit_append_true (natDigits_ne_nil n)
    (fun c hc => natDigits_mem hc) (Or.inl rfl) q1 none
  rw [List.append_nil] at h
  rw [List.append_assoc]
  exact h

theorem countLimit_result {q1 : List Char} (n : Nat) {semi : List Char}
    (hsemi : GoodTail semi) (hsearch : searchLimit none q1 = false) :
    countLimit none ((q1 ++ limitSep ++ natDigits n) ++ semi) = 1 := by
  have h := countLimit_append_one (natDigits_ne_nil n)
    (fun c hc => natDigits_mem hc) hsemi q1 none hsearch
  rw [List.append_assoc, List.append_assoc]
  exact h

theorem elBody_front {l : List Char} (h : matchesSelect (elBody l) = true) :
    ∃ c q1', elBody l = c :: q1' ∧ isSpaceChar c = false := by
  have hne := matchesSelect_ne_nil h
  cases hq : elBody l with
  | nil => exact absurd hq hne
  | cons c q1' => exact ⟨c, q1', rfl, elBody_head (by rw [hq]; rfl)⟩

theorem pyStrip_eq_self_of_cons {c : Char} {m : List Char} {z : Char}
    (hc : isSpaceChar c = false) (hz : isSpaceChar z = false)
    (hlast : (c :: m).getLast? = some z) : pyStrip (c :: m) = c :: m := by
  refine pyStrip_eq_self ?_ ?_
  · intro c' h'
    simp only [List.head?_cons, Option.some.injEq] at h'
    subst h'
    exact hc
  · intro z' h'
    rw [hlast] at h'
    simp only [Option.some.injEq] at h'
    subst h'
    exact hz

/-- The digit list of `n` ends in a digit, which is neither whitespace nor a
semicolon. -/
theorem natDigits_getLast (n : Nat) :
    ∃ dl, (natDigits n).getLast? = some dl ∧ isSpaceChar dl = false ∧
      ¬(dl = ';') := by
  rcases List.eq_nil_or_concat (natDigits n) with hnil | ⟨init, dl, hds⟩
  · exact absurd hnil (natDigits_ne_nil n)
  · rw [List.concat_eq_append] at hds
    have hmem : dl ∈ natDigits n := by rw [hds]; simp
    obtain ⟨k, hk, hdk⟩ := natDigits_mem hmem
    refine ⟨dl, ?_, ?_, ?_⟩
    · rw [hds, List.getLast?_concat]
    · rw [hdk]
      exact digitChar10_not_space hk
    · rw [hdk]
      exact digitChar10_ne_semi hk

/-- `ensure_limit` is idempotent: a second pass finds either the original
LIMIT or the one it appended, and returns its input unchanged. -/
theorem ensure_limit_idem (l : List Char) (n : Nat) :
    ensure_limit (ensure_limit l n) n = ensure_limit l n := by
  by_cases h1 : searchLimit none (elBody l) = true
  · have hA : ensure_limit l n = l := by rw [ensure_limit_cases, if_pos h1]
    rw [hA]
    exact hA
  · by_cases h2 : matchesSelect (elBody l) = true
    · have hB : ensure_limit l n =
          (elBody l ++ limitSep ++ natDigits n) ++
            (if elSemi l then [';'] else []) := by
        rw [ensure_limit_cases, if_neg h1, if_pos h2]
      obtain ⟨c, q1', hq1, hc⟩ := elBody_front h2
      rw [hB]
      by_cases hsemi : elSemi l = true
      · rw [if_pos hsemi]
        set t := (elBody l ++ limitSep ++ natDigits n) ++ [';'] with htdef
        have htlast : t.getLast? = some ';' := List.getLast?_concat _
        have htcons : t = c :: (q1' ++ limitSep ++ natDigits n ++ [';']) := by
          rw [htdef, hq1]
          simp [List.cons_append, List.append_assoc]
        have hstrip : pyStrip t = t := by
          rw [htcons]
          exact pyStrip_eq_self_of_cons hc (by decide) (htcons ▸ htlast)
        have hsemi' : elSemi t = true := by
          rw [elSemi, hstrip, htlast]
          simp
        have hbody : elBody t = elBody l ++ limitSep ++ natDigits n := by
          rw [elBody, if_pos hsemi', hstrip, htdef, List.dropLast_concat]
        rw [ensure_limit_cases t n, if_pos (by rw [hbody]; exact searchLimit_appended _ n)]
      · rw [if_neg hsemi, List.append_nil]
        set t := elBody l ++ limitSep ++ natDigits n with htdef
        obtain ⟨dl, hdl, hdlsp, hdlsemi⟩ := natDigits_getLast n
        have htlast : t.getLast? = some dl := by
          rw [htdef, List.append_assoc, List.getLast?_append]
          rw [List.getLast?_append, hdl]
          rfl
        have htcons : t = c :: (q1' ++ limitSep ++ natDigits n) := by
          rw [htdef, hq1]
          simp [List.cons_append, List.append_assoc]
        have hstrip : pyStrip t = t := by
          rw [htcons]
          exact pyStrip_eq_self_of_cons hc hdlsp (htcons ▸ htlast)
        have hsemi' : elSemi t = false := by
          rw [elSemi, hstrip, htlast]
          simp [hdlsemi]
        have hbody : elBody t = t := by
          rw [elBody, hsemi']
          simp [hstrip]
        rw [ensure_limit_cases t n,
          if_pos (by rw [hbody, htdef]; exact searchLimit_appended _ n)]
    · have hC : ensure_limit l n = l := by
        rw [ensure_limit_cases, if_neg h1, if_neg h2]
      rw [hC]
      exact hC

theorem limitBody_eq (q : String) :
    limitBody q = elBody (_strip_query_fences q).data := rfl

theorem semiFlag_eq (q : String) :
    semiFlag q = elSemi (_strip_query_fences q).data := rfl

theorem mk_data (l : List Char) : (⟨l⟩ : String).data = l := rfl

theorem normalize_query_mk (q : String) (n : Nat) :
    normalize_query q n = ⟨ensure_limit (_strip_query_fences q).data n⟩ := rfl

theorem normalize_query_data (q : String) (n : Nat) :
    (normalize_query q n).data = ensure_limit (_strip_query_fences q).data n := by
  rw [normalize_query_mk]

/-! ### Claim C1 -/

/--
C1 (amended): for every `q` and positive `n`, writing `body` for the
fence-stripped, whitespace-stripped text of `q` with its trailing semicolon
set aside: if `body` contains no case-insensitive `LIMIT <number>` and matches
`^\s*SELECT\b`, then `normalize(q, n)` is exactly `body` followed by
` LIMIT n`, with the semicolon reattached at the very end, it contains exactly
one `LIMIT <number>` clause, and it still starts with `SELECT`.  If `body`
already contains a `LIMIT <number>` clause, the fence-stripped text (not
necessarily `q` itself) is returned unchanged — in which case it may contain
more than one `LIMIT` clause, which is what refutes the original claim.
-/
theorem normalize_query_limit_invariant (q : String) (n : Nat) (hn : 0 < n) :
    (searchLimit none (limitBody q) = false →
      matchesSelect (limitBody q) = true →
        (normalize_query q n).data
            = (limitBody q ++ limitSep ++ natDigits n)
                ++ (if semiFlag q then [';'] else [])
          ∧ countLimit none (normalize_query q n).data = 1
          ∧ matchesSelect (normalize_query q n).data = true)
    ∧ (searchLimit none (limitBody q) = true →
        normalize_query q n = _strip_query_fences q) := by
  constructor
  · intro hsearch hsel
    rw [limitBody_eq] at hsearch hsel
    have hdata : (normalize_query q n).data =
        (limitBody q ++ limitSep ++ natDigits n)
          ++ (if semiFlag q then [';'] else []) := by
      rw [normalize_query_data, ensure_limit_cases, if_neg (by simp [hsearch]),
        if_pos hsel, limitBody_eq, semiFlag_eq]
    refine ⟨hdata, ?_, ?_⟩
    · rw [hdata]
      refine countLimit_result n ?_ ?_
      · cases hsf : semiFlag q <;> simp [GoodTail]
      · rw [limitBody_eq]
        exact hsearch
    · rw [hdata]
      have h := matchesSelect_append_space hsel
        ('L' :: 'I' :: 'M' :: 'I' :: 'T' :: ' ' ::
          (natDigits n ++ (if semiFlag q then [';'] else [])))
      rw [limitBody_eq, List.append_assoc, List.append_assoc]
      exact h
  · intro hsearch
    rw [limitBody_eq] at hsearch
    calc normalize_query q n
        = ⟨ensure_limit (_strip_query_fences q).data n⟩ := normalize_query_mk q n
      _ = ⟨(_strip_query_fences q).data⟩ := by
            rw [ensure_limit_cases, if_pos hsearch]
      _ = _strip_query_fences q := by
            rw [_strip_query_fences, mk_data]

/-- Witness for C1 at `q = "select a from t;"`, `n = 50`. -/
theorem normalize_query_limit_invariant_witness :
    (normalize_query "select a from t;" 50).data
        = (limitBody "select a from t;" ++ limitSep ++ natDigits 50)
            ++ (if semiFlag "select a from t;" then [';'] else [])
      ∧ countLimit none (normalize_query "select a from t;" 50).data = 1
      ∧ matchesSelect (normalize_query "select a from t;" 50).data = true :=
  (normalize_query_limit_invariant "select a from t;" 50 (by decide)).1
    (by decide) (by decide)

/--
C1 counterexample: `"SELECT a LIMIT 1 LIMIT 2"` is returned unchanged, starts
with `SELECT`, and contains two `LIMIT <number>` clauses — not exactly one.
-/
theorem normalize_query_limit_counterexample :
    (normalize_query "SELECT a LIMIT 1 LIMIT 2" 50).data.take 6
        = ['S', 'E', 'L', 'E', 'C', 'T']
      ∧ normalize_query "SELECT a LIMIT 1 LIMIT 2" 50 = "SELECT a LIMIT 1 LIMIT 2"
      ∧ countLimit none (normalize_query "SELECT a LIMIT 1 LIMIT 2" 50).data = 2 :=
  ⟨by decide, by decide, by decide⟩

/-! ### Claim C3 -/

/--
C3 (amended): `normalize` is idempotent on every input whose first
normalization is a fixed point of fence/quote stripping; the second
`ensure_limit` pass is always the identity (`ensure_limit_idem`).  The
original unconditional claim fails because `_strip_query_fences` can strip a
fresh layer of surrounding quotes from the already-normalized text.
-/
theorem normalize_query_idem_of_fence_stable (q : String) (n : Nat)
    (h : _strip_query_fences (normalize_query q n) = normalize_query q n) :
    normalize_query (normalize_query q n) n = normalize_query q n := by
  calc normalize_query (normalize_query q n) n
      = ⟨ensure_limit (_strip_query_fences (normalize_query q n)).data n⟩ :=
        normalize_query_mk _ n
    _ = ⟨ensure_limit (normalize_query q n).data n⟩ := by rw [h]
    _ = ⟨ensure_limit (ensure_limit (_strip_query_fences q).data n) n⟩ := by
          rw [normalize_query_data]
    _ = ⟨ensure_limit (_strip_query_fences q).data n⟩ := by
          rw [ensure_limit_idem]
    _ = normalize_query q n := (normalize_query_mk q n).symm

/-- Witness for C3 (amended) at `q = "SELECT 1"`, `n = 50`. -/
theorem normalize_query_idem_witness :
    normalize_query (normalize_query "SELECT 1" 50) 50
      = normalize_query "SELECT 1" 50 :=
  normalize_query_idem_of_fence_stable "SELECT 1" 50 (by decide)

/--
C3 counterexample: doubled surrounding quotes defeat idempotence — the first
pass strips one quote layer and appends nothing, the second strips the inner
quotes and appends a LIMIT.
-/
theorem normalize_query_not_idempotent :
    normalize_query (normalize_query "\"\"SELECT 1\"\"" 50) 50
      ≠ normalize_query "\"\"SELECT 1\"\"" 50 := by decide

/-! ### Claim C8 -/

/--
Python object handed to `_strip_query_fences`: either a `str`, or any
non-string value, which the source immediately replaces by its `str(q)`
rendering.  Only that rendering is observable, so the model carries it
directly.
-/
inductive PyObj where
  | pstr (s : String)
  | other (render : String)

/-- Python `str(...)` on a `PyObj`. -/
def pyStr : PyObj → String
  | .pstr s => s
  | .other r => r

/-- `_strip_query_fences` on an arbitrary Python value: the source coerces a
non-string input with `str(q)` before cleaning. -/
def _strip_query_fences_obj (q : PyObj) : String :=
  match q with
  | .pstr s => ⟨stripQueryFencesCore s.data⟩
  | .other r => ⟨stripQueryFencesCore r.data⟩

/-- `normalize_query` on an arbitrary Python value. -/
def normalize_query_obj (q : PyObj) (limit : Nat) : String :=
  ⟨ensure_limit (_strip_query_fences_obj q).data limit⟩

/--
C8: `normalize` is total on every Python value: it coerces a non-string input
to its string rendering and then behaves exactly like `normalize` on strings.
Totality (`never raises`) holds by construction: every operation of the
embedding is a total function, so the `except`-fallback branches of the
source (`return query` / `return str(q)`) are unreachable.
-/
theorem normalize_query_total_coercion (o : PyObj) (n : Nat) :
    normalize_query_obj o n = normalize_query (pyStr o) n := by
  cases o <;> rfl

/-! ## Conversation store (the three SQLite tables as lists of rows)

Timestamps are ISO-8601 strings ordered lexicographically in the source,
which is a linear order; they are modelled as naturals.  Generated ids
(`_gen_id`) and timestamps (`_now_str`) are passed in as parameters. -/

/-- A row of the `conversation` table. -/
structure ConversationRow where
  id : String
  title : Option String
  database_name : Option String
  created_at : Nat
  updated_at : Nat
deriving DecidableEq

/-- A row of the `message` table.  `charts_json` and `sql_meta_json` hold the
`json.dumps` renderings produced by the external json library. -/
structure MessageRow where
  id : String
  conversation_id : String
  role : String
  content_markdown : String
  charts_json : String
  sql_meta_json : String
  database_name : Option String
  facts : Option String
  created_at : Nat
deriving DecidableEq

/-- A row of the `summary` table. -/
structure SummaryRow where
  id : String
  conversation_id : String
  content : String
  created_at : Nat
deriving DecidableEq

/-- The persistent state: the three append-mostly tables. -/
structure DBState where
  conversations : List ConversationRow
  messages : List MessageRow
  summaries : List SummaryRow
deriving DecidableEq

/-! ### ORDER BY, modelled as an executable insertion sort -/

/-- Insert `a` in front of the first element `b` with `le a b`. -/
def insertLe (le : α → α → Bool) (a : α) : List α → List α
  | [] => [a]
  | b :: l => if le a b then a :: b :: l else b :: insertLe le a l

/-- Insertion sort by `le` (models SQL `ORDER BY`; ties are left in an
unspecified order by SQLite, so any sort is a faithful model). -/
def sortByLe (le : α → α → Bool) : List α → List α
  | [] => []
  | a :: l => insertLe le a (sortByLe le l)

theorem insertLe_perm (le : α → α → Bool) (a : α) (l : List α) :
    List.Perm (insertLe le a l) (a :: l) := by
  induction l with
  | nil => exact List.Perm.refl _
  | cons b t ih =>
    rw [insertLe]
    by_cases h : le a b = true
    · rw [if_pos h]
    · rw [if_neg h]
      exact (List.Perm.cons b ih).trans (List.Perm.swap a b t)

theorem sortByLe_perm (le : α → α → Bool) (l : List α) :
    List.Perm (sortByLe le l) l := by
  induction l with
  | nil => exact List.Perm.refl _
  | cons a t ih =>
    rw [sortByLe]
    exact (insertLe_perm le a _).trans (List.Perm.cons a ih)

theorem mem_sortByLe {le : α → α → Bool} {l : List α} {x : α} :
    x ∈ sortByLe le l ↔ x ∈ l := (sortByLe_perm le l).mem_iff

/-! ### Store operations used by the claims -/

/-- `get_message_count` (app.py:961): `COUNT(*) WHERE conversation_id=?`. -/
def get_message_count (db : DBState) (conversation_id : String) : Nat :=
  (db.messages.filter (fun m => m.conversation_id = conversation_id)).length

/-- `get_oldest_messages` (app.py:968):
`WHERE conversation_id=? ORDER BY created_at ASC LIMIT ?`. -/
def get_oldest_messages (db : DBState) (conversation_id : String)
    (limit : Nat) : List MessageRow :=
  (sortByLe (fun a b => a.created_at ≤ b.created_at)
    (db.messages.filter (fun m => m.conversation_id = conversation_id))).take limit

/-- `delete_messages_by_ids` (app.py:978): no-op on an empty id list, else
`DELETE WHERE conversation_id=? AND id IN (...)`. -/
def delete_messages_by_ids (db : DBState) (conversation_id : String)
    (ids : List String) : DBState :=
  if ids = [] then db
  else
    ⟨db.conversations,
     db.messages.filter
       (fun m => ¬(m.conversation_id = conversation_id ∧ m.id ∈ ids)),
     db.summaries⟩

/-- `save_summary` (app.py:987): INSERT a summary row. -/
def save_summary (db : DBState) (sid : String) (conversation_id content : String)
    (ts : Nat) : DBState :=
  ⟨db.conversations, db.messages,
   db.summaries ++ [⟨sid, conversation_id, content, ts⟩]⟩

/-! ### `get_past_facts` (app.py:1009) -/

/-- Python-style join with a newline separator. -/
def joinNL : List String → String
  | [] => ""
  | [s] => s
  | s :: rest => s ++ "\n" ++ joinNL rest

/-- The rows `get_past_facts` selects:
`WHERE conversation_id=? AND database_name=? AND role='assistant' AND
facts IS NOT NULL ORDER BY created_at DESC LIMIT ?`. -/
def factRows (db : DBState) (database_name : String) (lim : Nat)
    (conversation_id : String) : List MessageRow :=
  (sortByLe (fun a b => b.created_at ≤ a.created_at)
    (db.messages.filter (fun m =>
      m.conversation_id = conversation_id
        ∧ m.database_name = some database_name
        ∧ m.role = "assistant" ∧ m.facts ≠ none))).take lim

/-- `get_past_facts(database_name, limit, conversation_id)`: `""` on a falsy
database name or absent conversation id; otherwise the truthy `facts` of the
selected rows, each prefixed and joined by newlines. -/
def get_past_facts (db : DBState) (database_name : String) (lim : Nat)
    (conversation_id : Option String) : String :=
  if database_name = "" then ""
  else
    match conversation_id with
    | none => ""
    | some cid =>
      let rows := factRows db database_name lim cid
      if rows = [] then ""
      else
        let past_facts := rows.filterMap (fun r =>
          match r.facts with
          | some f =>
            if f = "" then none else some ("Previous exploration: " ++ f)
          | none => none)
        if past_facts = [] then "" else joinNL past_facts

/-! ### Claim C5 -/

/--
C5: fact retrieval is conversation-scoped.  Every row feeding
`get_past_facts` for conversation `A` is an assistant message of `A` itself;
rows feeding two distinct conversations are disjoint; and an absent
conversation id yields `""`.
-/
theorem get_past_facts_isolation (db : DBState) (ds : String) (lim : Nat)
    (A B : String) (hAB : A ≠ B) :
    (∀ r ∈ factRows db ds lim A,
        r.conversation_id = A ∧ r.role = "assistant")
    ∧ (∀ r, r ∈ factRows db ds lim A → r ∉ factRows db ds lim B)
    ∧ get_past_facts db ds lim none = "" := by
  have hmem : ∀ (cid : String), ∀ r ∈ factRows db ds lim cid,
      r.conversation_id = cid ∧ r.role = "assistant" := by
    intro cid r hr
    rw [factRows] at hr
    have h1 := List.take_subset _ _ hr
    rw [mem_sortByLe] at h1
    have h2 := (List.mem_filter.mp h1).2
    simp only [decide_eq_true_eq] at h2
    exact ⟨h2.1, h2.2.2.1⟩
  refine ⟨hmem A, ?_, ?_⟩
  · intro r hrA hrB
    have h1 := (hmem A r hrA).1
    have h2 := (hmem B r hrB).1
    exact hAB (h1 ▸ h2)
  · rw [get_past_facts]
    by_cases h : ds = "" <;> simp [h]

/-- Witness for C5 on a concrete store holding facts in two conversations. -/
theorem get_past_facts_isolation_witness :
    (∀ r ∈ factRows
        ⟨[], [⟨"m1", "a", "assistant", "x", "[]", "{}", some "ds", some "f1", 1⟩,
              ⟨"m2", "b", "assistant", "y", "[]", "{}", some "ds", some "f2", 2⟩],
          []⟩ "ds" 10 "a",
        r.conversation_id = "a" ∧ r.role = "assistant")
    ∧ (∀ r, r ∈ factRows
        ⟨[], [⟨"m1", "a", "assistant", "x", "[]", "{}", some "ds", some "f1", 1⟩,
              ⟨"m2", "b", "assistant", "y", "[]", "{}", some "ds", some "f2", 2⟩],
          []⟩ "ds" 10 "a" →
        r ∉ factRows
        ⟨[], [⟨"m1", "a", "assistant", "x", "[]", "{}", some "ds", some "f1", 1⟩,
              ⟨"m2", "b", "assistant", "y", "[]", "{}", some "ds", some "f2", 2⟩],
          []⟩ "ds" 10 "b")
    ∧ get_past_facts
        ⟨[], [⟨"m1", "a", "assistant", "x", "[]", "{}", some "ds", some "f1", 1⟩,
              ⟨"m2", "b", "assistant", "y", "[]", "{}", some "ds", some "f2", 2⟩],
          []⟩ "ds" 10 none = "" :=
  get_past_facts_isolation _ "ds" 10 "a" "b" (by decide)

/-! ### `add_message` (app.py:916) -/

/-- Python `s[:n]` on a string. -/
def pyTake (n : Nat) (s : String) : String := ⟨s.data.take n⟩

/-- Python `s.upper()` (ASCII). -/
def pyUpper (s : String) : String := ⟨s.data.map Char.toUpper⟩

/-- Python `s.strip()` on a `String`. -/
def pyStripStr (s : String) : String := ⟨pyStrip s.data⟩

/-- Python truthiness of an optional string: `None` and `""` are falsy. -/
def pyTruthy : Option String → Bool
  | none => false
  | some s => s ≠ ""

/--
`add_message` (app.py:916-931): INSERT the new message row; on a user message
with a truthy `title_hint`, backfill the conversation title if it is still the
`'New conversation'` placeholder (or NULL); then touch `updated_at` *and
overwrite `database_name`* of the conversation row.  `msg_id`/`ts` model
`_gen_id`/`_now_str`; `charts_json`/`sql_meta_json` carry the `json.dumps`
renderings produced by the external json library.
-/
def add_message (db : DBState) (msg_id : String) (ts : Nat)
    (conversation_id role content_markdown : String)
    (charts_json sql_meta_json : String)
    (title_hint : Option String) (database_name : Option String)
    (facts : Option String) : DBState :=
  let msgs := db.messages ++
    [⟨msg_id, conversation_id, role, content_markdown, charts_json,
      sql_meta_json, database_name, facts, ts⟩]
  let convs1 :=
    if role = "user" ∧ pyTruthy title_hint then
      db.conversations.map (fun c =>
        if c.id = conversation_id
            ∧ (c.title = none ∨ c.title = some "New conversation") then
          { c with title := some (pyTake 80 (title_hint.getD "")) }
        else c)
    else db.conversations
  let convs2 := convs1.map (fun c =>
    if c.id = conversation_id then
      { c with updated_at := ts, database_name := database_name }
    else c)
  ⟨convs2, msgs, db.summaries⟩

/-! ### Claim C9 -/

/--
C9 (amended): `add_message` appends one message row, leaves the summary table
and every message row untouched, and rewrites a conversation row only at the
targeted conversation id, where exactly three fields can change: the one-time
title backfill, the `updated_at` touch, and — missed by the original claim —
the unconditional `database_name` overwrite.  `id` and `created_at` of every
stored row are preserved.
-/
theorem add_message_frame (db : DBState) (msg_id : String) (ts : Nat)
    (cid role content cj sj : String) (th dbn facts : Option String) :
    (add_message db msg_id ts cid role content cj sj th dbn facts).summaries
        = db.summaries
    ∧ (add_message db msg_id ts cid role content cj sj th dbn facts).messages
        = db.messages ++ [⟨msg_id, cid, role, content, cj, sj, dbn, facts, ts⟩]
    ∧ (add_message db msg_id ts cid role content cj sj th dbn facts).conversations
        = db.conversations.map (fun c =>
            if c.id = cid then
              ⟨c.id,
               if role = "user" ∧ pyTruthy th
                   ∧ (c.title = none ∨ c.title = some "New conversation")
                 then some (pyTake 80 (th.getD "")) else c.title,
               dbn, c.created_at, ts⟩
            else c) := by
  refine ⟨rfl, rfl, ?_⟩
  show (let msgs := db.messages ++
      [⟨msg_id, cid, role, content, cj, sj, dbn, facts, ts⟩]
    let convs1 :=
      if role = "user" ∧ pyTruthy th then
        db.conversations.map (fun c =>
          if c.id = cid ∧ (c.title = none ∨ c.title = some "New conversation") then
            { c with title := some (pyTake 80 (th.getD "")) }
          else c)
      else db.conversations
    let convs2 := convs1.map (fun c =>
      if c.id = cid then
        { c with updated_at := ts, database_name := dbn }
      else c)
    (⟨convs2, msgs, db.summaries⟩ : DBState)).conversations = _
  by_cases hc : role = "user" ∧ pyTruthy th = true
  · simp only [if_pos hc, List.map_map]
    refine List.map_congr_left ?_
    intro c _
    cases c with
    | mk i t d ca ua =>
      simp only [Function.comp_apply]
      by_cases hid : i = cid
      · by_cases hbf : t = none ∨ t = some "New conversation"
        · simp [hid, hbf, hc.1, hc.2]
        · simp [hid, hbf, hc.1, hc.2]
      · simp [hid]
  · simp only [if_neg hc]
    refine List.map_congr_left ?_
    intro c _
    cases c with
    | mk i t d ca ua =>
      by_cases hid : i = cid
      · have hneg : ¬(role = "user" ∧ pyTruthy th = true
            ∧ (t = none ∨ t = some "New conversation")) :=
          fun h => hc ⟨h.1, h.2.1⟩
        simp [hid, hneg]
      · simp [hid]

/--
C9 counterexample: `add_message` on an assistant message (no title backfill
involved) overwrites the stored `database_name` of the conversation row from
`db1` to `db2` — an in-place update of a field the claim says is left
unchanged.
-/
theorem add_message_overwrites_database_name :
    ((add_message ⟨[⟨"c1", some "T", some "db1", 0, 0⟩], [], []⟩
        "m1" 1 "c1" "assistant" "hello" "[]" "{}" none (some "db2")
        none).conversations.map (fun c => c.database_name)) = [some "db2"]
    ∧ ([(⟨"c1", some "T", some "db1", 0, 0⟩ : ConversationRow)].map
        (fun c => c.database_name)) = [some "db1"]
    ∧ (some "db2" : Option String) ≠ some "db1" :=
  ⟨by decide, by decide, by decide⟩

/-! ### Compaction inside `ask_question` (app.py:5508-5534) -/

/-- Text of the oldest messages handed to the summarizer (app.py:5515-5521):
`f"{role.upper()}: {content[:600]}"` for each message whose stripped content
is non-empty, joined by newlines. -/
def renderForSummary (oldest : List MessageRow) : String :=
  joinNL (oldest.filterMap (fun m =>
    if pyStripStr m.content_markdown = "" then none
    else some ((pyUpper m.role ++ ": ")
      ++ pyTake 600 (pyStripStr m.content_markdown))))

/-- The static placeholder persisted when the summarization chain raises. -/
def summaryFallback : String := "Previous context summarized: (details omitted)."

/--
Compaction as run by `ask_question` before building prompt context
(app.py:5508-5534): when the conversation holds more than 10 messages, the
oldest 10 are rendered, summarized by the completion collaborator `summarize`
(`none` models a raised exception, replaced by the static placeholder; the
result is coerced to a string and stripped), the summary is saved and the 10
source messages are deleted by id.  `sum_id`/`ts` model `_gen_id`/`_now_str`.
-/
def compact_if_needed (summarize : String → Option String) (sum_id : String)
    (ts : Nat) (db : DBState) (conversation_id : String) : DBState :=
  if 10 < get_message_count db conversation_id then
    delete_messages_by_ids
      (save_summary db sum_id conversation_id
        (match summarize
            (renderForSummary (get_oldest_messages db conversation_id 10)) with
         | some r => pyStripStr r
         | none => summaryFallback) ts)
      conversation_id
      ((get_oldest_messages db conversation_id 10).map (fun m => m.id))
  else db

theorem get_oldest_messages_length {db : DBState} {cid : String}
    (h : 10 < get_message_count db cid) :
    (get_oldest_messages db cid 10).length = 10 := by
  rw [get_oldest_messages, List.length_take,
    (sortByLe_perm _ _).length_eq]
  exact Nat.min_eq_left (Nat.le_of_lt h)

theorem mem_get_oldest {db : DBState} {cid : String} {k : Nat} {m : MessageRow}
    (hm : m ∈ get_oldest_messages db cid k) :
    m ∈ db.messages ∧ m.conversation_id = cid := by
  rw [get_oldest_messages] at hm
  have h1 := List.take_subset _ _ hm
  rw [mem_sortByLe] at h1
  have h2 := List.mem_filter.mp h1
  exact ⟨h2.1, by simpa using h2.2⟩

theorem oldest_ids_ne_nil {db : DBState} {cid : String}
    (h : 10 < get_message_count db cid) :
    (get_oldest_messages db cid 10).map (fun m => m.id) ≠ [] := by
  intro h0
  have := congrArg List.length h0
  rw [List.length_map, get_oldest_messages_length h] at this
  simp at this

theorem compact_messages_eq {summarize : String → Option String}
    {sum_id : String} {ts : Nat} {db : DBState} {cid : String}
    (h : 10 < get_message_count db cid) :
    (compact_if_needed summarize sum_id ts db cid).messages
      = db.messages.filter (fun m =>
          ¬(m.conversation_id = cid
            ∧ m.id ∈ (get_oldest_messages db cid 10).map (fun m => m.id))) := by
  rw [compact_if_needed, if_pos h, delete_messages_by_ids,
    if_neg (oldest_ids_ne_nil h)]
  rfl

theorem compact_summaries_eq {summarize : String → Option String}
    {sum_id : String} {ts : Nat} {db : DBState} {cid : String}
    (h : 10 < get_message_count db cid) :
    (compact_if_needed summarize sum_id ts db cid).summaries
      = db.summaries ++ [⟨sum_id, cid,
          (match summarize (renderForSummary (get_oldest_messages db cid 10)) with
           | some r => pyStripStr r
           | none => summaryFallback), ts⟩] := by
  rw [compact_if_needed, if_pos h, delete_messages_by_ids]
  by_cases h0 : (get_oldest_messages db cid 10).map (fun m => m.id) = []
  · rw [if_pos h0]
    rfl
  · rw [if_neg h0]
    rfl

theorem get_message_count_compact {summarize : String → Option String}
    {sum_id : String} {ts : Nat} {db : DBState} {cid : String}
    (hnodup : (List.map (fun m => m.id)
        (db.messages.filter (fun m => m.conversation_id = cid))).Nodup)
    (h : 10 < get_message_count db cid) :
    get_message_count (compact_if_needed summarize sum_id ts db cid) cid
      = get_message_count db cid - 10 := by
  classical
  set f : MessageRow → String := fun m => m.id with hf
  set L := db.messages.filter (fun m => m.conversation_id = cid) with hL
  set sorted := sortByLe (fun a b => a.created_at ≤ b.created_at) L with hsorted
  have hS : get_oldest_messages db cid 10 = sorted.take 10 := rfl
  set S := sorted.take 10 with hSdef
  set D := sorted.drop 10 with hDdef
  set ids := S.map f with hids
  have hperm : List.Perm sorted L := sortByLe_perm _ _
  have hsplit : S ++ D = sorted := List.take_append_drop 10 sorted
  have hLSD : List.Perm L (S ++ D) := by
    rw [hsplit]
    exact hperm.symm
  have hnodupSD : ((S ++ D).map f).Nodup := ((hLSD.map f).nodup_iff).mp hnodup
  rw [List.map_append, List.nodup_append] at hnodupSD
  obtain ⟨-, -, hdisj⟩ := hnodupSD
  -- the messages that survive compaction, restricted to the conversation
  have hfilter : (compact_if_needed summarize sum_id ts db cid).messages.filter
      (fun m => m.conversation_id = cid)
        = L.filter (fun m => ¬(f m ∈ ids)) := by
    rw [compact_messages_eq h, List.filter_filter, hL, List.filter_filter]
    refine List.filter_congr ?_
    intro m _
    by_cases h1 : m.conversation_id = cid <;> by_cases h2 : f m ∈ ids <;>
      simp [h1, h2, hS, hids, hf]
  have hSfilter : S.filter (fun m => ¬(f m ∈ ids)) = [] := by
    rw [List.filter_eq_nil]
    intro s hs
    simp only [hids, decide_not, Bool.not_eq_true', decide_eq_false_iff_not,
      Decidable.not_not]
    exact List.mem_map_of_mem f hs
  have hDfilter : D.filter (fun m => ¬(f m ∈ ids)) = D := by
    rw [List.filter_eq_self]
    intro d hd
    have hdmem : f d ∈ D.map f := List.mem_map_of_mem f hd
    simp only [decide_not, Bool.not_eq_true', decide_eq_false_iff_not]
    intro hin
    exact hdisj hin hdmem
  have hlen : (L.filter (fun m => ¬(f m ∈ ids))).length = D.length := by
    rw [(hLSD.filter _).length_eq, List.filter_append, hSfilter, hDfilter,
      List.nil_append]
  rw [get_message_count, hfilter, hlen, hDdef, List.length_drop,
    hperm.length_eq]
  rfl

/-! ### Claim C6 -/

/--
C6: before prompt context is built, a conversation holding more than 10
messages is compacted: the oldest 10 are rendered and summarized (static
placeholder when the summarizer raises), the summary is persisted, and
exactly those 10 messages are deleted; consequently the per-conversation
message count stays at most 12 (= the 10-message threshold plus the two
turns persisted per question) across a compact-then-persist ask step.
-/
theorem compaction_policy (summarize : String → Option String)
    (sum_id : String) (ts : Nat) (db : DBState) (cid : String)
    (mid1 mid2 : String) (ts1 ts2 : Nat) (q a cj sj : String)
    (dbn : Option String) (facts : Option String)
    (hnodup : (List.map (fun m => m.id)
        (db.messages.filter (fun m => m.conversation_id = cid))).Nodup) :
    (10 < get_message_count db cid →
      (get_oldest_messages db cid 10).length = 10
      ∧ (compact_if_needed summarize sum_id ts db cid).summaries
          = db.summaries ++ [⟨sum_id, cid,
              (match summarize
                  (renderForSummary (get_oldest_messages db cid 10)) with
               | some r => pyStripStr r
               | none => summaryFallback), ts⟩]
      ∧ (∀ m ∈ get_oldest_messages db cid 10,
            m ∉ (compact_if_needed summarize sum_id ts db cid).messages)
      ∧ (∀ m ∈ db.messages, m ∉ get_oldest_messages db cid 10 →
            m ∈ (compact_if_needed summarize sum_id ts db cid).messages)
      ∧ get_message_count (compact_if_needed summarize sum_id ts db cid) cid
          = get_message_count db cid - 10)
    ∧ (get_message_count db cid ≤ 12 →
        get_message_count
          (add_message
            (add_message (compact_if_needed summarize sum_id ts db cid)
              mid1 ts1 cid "user" q "[]" "{}" (some q) dbn none)
            mid2 ts2 cid "assistant" a cj sj none dbn facts) cid ≤ 12) := by
  have hcount_add : ∀ (db' : DBState) (mid : String) (t : Nat)
      (role content cj' sj' : String) (th : Option String)
      (dbn' fa : Option String),
      get_message_count
          (add_message db' mid t cid role content cj' sj' th dbn' fa) cid
        = get_message_count db' cid + 1 := by
    intro db' mid t role content cj' sj' th dbn' fa
    have hmsgs : (add_message db' mid t cid role content cj' sj' th dbn' fa).messages
        = db'.messages ++ [⟨mid, cid, role, content, cj', sj', dbn', fa, t⟩] := rfl
    rw [get_message_count, hmsgs, List.filter_append]
    simp [get_message_count]
  constructor
  · intro h
    refine ⟨get_oldest_messages_length h, compact_summaries_eq h, ?_, ?_,
      get_message_count_compact hnodup h⟩
    · intro m hm hmem
      rw [compact_messages_eq h] at hmem
      have := (List.mem_filter.mp hmem).2
      simp only [decide_not, Bool.not_eq_true', decide_eq_false_iff_not] at this
      exact this ⟨(mem_get_oldest hm).2, List.mem_map_of_mem _ hm⟩
    · intro m hm hnot
      rw [compact_messages_eq h, List.mem_filter]
      refine ⟨hm, ?_⟩
      simp only [decide_not, Bool.not_eq_true', decide_eq_false_iff_not]
      rintro ⟨hconv, hid⟩
      obtain ⟨s, hs, hsid⟩ := List.mem_map.mp hid
      have hmL : m ∈ db.messages.filter
          (fun m => m.conversation_id = cid) := by
        rw [List.mem_filter]
        exact ⟨hm, by simp [hconv]⟩
      have hsL : s ∈ db.messages.filter
          (fun m => m.conversation_id = cid) := by
        rw [List.mem_filter]
        exact ⟨(mem_get_oldest hs).1, by simp [(mem_get_oldest hs).2]⟩
      have : s = m := List.inj_on_of_nodup_map hnodup hsL hmL hsid
      exact hnot (this ▸ hs)
  · intro hle
    rw [hcount_add, hcount_add]
    by_cases h : 10 < get_message_count db cid
    · rw [get_message_count_compact hnodup h]
      omega
    · have : compact_if_needed summarize sum_id ts db cid = db := by
        rw [compact_if_needed, if_neg h]
      rw [this]
      omega

/-- A concrete store: one conversation `"c"` holding eleven messages. -/
def exampleStore : DBState :=
  ⟨[⟨"c", some "T", some "db", 0, 0⟩],
   [⟨"m1", "c", "user", "q1", "[]", "{}", some "db", none, 1⟩,
    ⟨"m2", "c", "assistant", "a1", "[]", "{}", some "db", some "f", 2⟩,
    ⟨"m3", "c", "user", "q2", "[]", "{}", some "db", none, 3⟩,
    ⟨"m4", "c", "assistant", "a2", "[]", "{}", some "db", some "f", 4⟩,
    ⟨"m5", "c", "user", "q3", "[]", "{}", some "db", none, 5⟩,
    ⟨"m6", "c", "assistant", "a3", "[]", "{}", some "db", some "f", 6⟩,
    ⟨"m7", "c", "user", "q4", "[]", "{}", some "db", none, 7⟩,
    ⟨"m8", "c", "assistant", "a4", "[]", "{}", some "db", some "f", 8⟩,
    ⟨"m9", "c", "user", "q5", "[]", "{}", some "db", none, 9⟩,
    ⟨"m10", "c", "assistant", "a5", "[]", "{}", some "db", some "f", 10⟩,
    ⟨"m11", "c", "user", "q6", "[]", "{}", some "db", none, 11⟩],
   []⟩

/-- Witness for C6: on the eleven-message store the compaction step removes
exactly the ten oldest messages, and the compact-then-persist ask step keeps
the count at 12 or below. -/
theorem compaction_policy_witness :
    get_message_count
        (compact_if_needed (fun _ => some " summary ") "s1" 100 exampleStore "c")
        "c" = get_message_count exampleStore "c" - 10
    ∧ get_message_count
        (add_message
          (add_message
            (compact_if_needed (fun _ => some " summary ") "s1" 100 exampleStore "c")
            "mm1" 101 "c" "user" "q7" "[]" "{}" (some "q7") (some "db") none)
          "mm2" 102 "c" "assistant" "a7" "[]" "{}" none (some "db") none)
        "c" ≤ 12 :=
  ⟨((compaction_policy (fun _ => some " summary ") "s1" 100 exampleStore "c"
      "mm1" "mm2" 101 102 "q7" "a7" "[]" "{}" (some "db") none
      (by decide)).1 (by decide)).2.2.2.2,
   (compaction_policy (fun _ => some " summary ") "s1" 100 exampleStore "c"
      "mm1" "mm2" 101 102 "q7" "a7" "[]" "{}" (some "db") none
      (by decide)).2 (by decide)⟩

/-! ## Chart data formatting (app.py:4675, 5174-5387)

Cells are the scalar values the execution collaborator returns.  Python
floats and `decimal.Decimal` are modelled as rationals; `bool` passes
`isinstance(·, int)` in Python and is kept as its own constructor. -/

/-- A scalar cell of a result row. -/
inductive Cell where
  | null
  | int (i : Int)
  | float (q : ℚ)
  | dec (q : ℚ)
  | str (s : String)
  | boolV (b : Bool)
deriving DecidableEq

/-- Python `s.lower()` (ASCII). -/
def pyLower (s : String) : String := ⟨s.data.map Char.toLower⟩

/-- Value of an all-digit character run (used for Python `int(...)` on the
digit strings this code guards with `isdigit`). -/
def digitsToNat : List Char → Nat → Nat
  | [], acc => acc
  | c :: rest, acc => digitsToNat rest (acc * 10 + (c.toNat - 48))

/-- Unsigned decimal literal: digits with an optional fraction part. -/
def parseUnsigned (l : List Char) : Option ℚ :=
  let intPart := l.takeWhile Char.isDigit
  let rest := l.dropWhile Char.isDigit
  match rest with
  | [] => if intPart = [] then none else some (digitsToNat intPart 0 : ℚ)
  | '.' :: frac =>
    if frac.all Char.isDigit ∧ ¬(intPart = [] ∧ frac = []) then
      some ((digitsToNat intPart 0 : ℚ)
        + (digitsToNat frac 0 : ℚ) / ((10 : ℚ) ^ frac.length))
    else none
  | _ => none

/-- Python `float(s)` on the plain decimal literals this code produces
(optional sign, digits, optional fraction; exponents/inf/nan do not occur in
the rendered cell texts fed to it). -/
def pyFloatOfString (s : String) : Option ℚ :=
  match pyStrip s.data with
  | '-' :: rest => (parseUnsigned rest).map (fun q => -q)
  | '+' :: rest => parseUnsigned rest
  | l => parseUnsigned l

/-- Python `str(int)`. -/
def intStr (i : Int) : String :=
  if i < 0 then ⟨'-' :: natDigits (-i).toNat⟩ else ⟨natDigits i.toNat⟩

/-- Rendering of a rational cell: exact for integral values (`"3.0"`, as
Python prints integral floats); non-integral values use a `num/den` rendering
that approximates Python's shortest-roundtrip float formatting (no claim
inspects such a label). -/
def ratStr (q : ℚ) : String :=
  if q.den = 1 then intStr q.num ++ ".0"
  else intStr q.num ++ "/" ++ (⟨natDigits q.den⟩ : String)

/-- Python `str(...)` of a cell. -/
def pyStrCell : Cell → String
  | .null => "None"
  | .int i => intStr i
  | .boolV b => if b then "True" else "False"
  | .str s => s
  | .float q => ratStr q
  | .dec q => ratStr q

/-- `safe_float` (app.py:4675-4682): use `__float__` when the value has one,
else `float(str(value))`; unconvertible values become `0.0`. -/
def safe_float : Cell → ℚ
  | .int i => (i : ℚ)
  | .float q => q
  | .dec q => q
  | .boolV b => if b then 1 else 0
  | .null => 0
  | .str s => (pyFloatOfString s).getD 0

/-- The `_is_number` helper of the formatter: `float(str(v))` succeeds. -/
def cellIsNumberStr (v : Cell) : Bool := (pyFloatOfString (pyStrCell v)).isSome

/-- The pivot check of app.py:5257-5259: `isinstance(val, (int, float,
type(None)))` — which admits `bool` and `None` — or a `Decimal`. -/
def cellNumericForPivot : Cell → Bool
  | .str _ => false
  | _ => true

/-- `Decimal` extras are converted to float before storage (app.py:5368);
other cells are stored as they are. -/
def cellOut : Cell → Cell
  | .dec q => .float q
  | c => c

/-! ### Substring utilities (Python `in` and `str.replace`) -/

/-- Match `pat` at the head, returning the remainder. -/
def dropPrefixChars : List Char → List Char → Option (List Char)
  | [], l => some l
  | _ :: _, [] => none
  | p :: ps, c :: cs => if c = p then dropPrefixChars ps cs else none

/-- Python `pat in s`. -/
def containsSub (pat : List Char) : List Char → Bool
  | [] => (dropPrefixChars pat []).isSome
  | c :: rest => (dropPrefixChars pat (c :: rest)).isSome || containsSub pat rest

/-- Python `s.replace(pat, '')`: drop every left-to-right non-overlapping
occurrence; fuelled for kernel evaluation. -/
def removeAllSubAux (pat : List Char) : Nat → List Char → List Char
  | 0, l => l
  | fuel + 1, l =>
    match l with
    | [] => []
    | c :: rest =>
      match dropPrefixChars pat (c :: rest) with
      | some r => removeAllSubAux pat fuel r
      | none => c :: removeAllSubAux pat fuel rest

/-- Python `s.replace(pat, '')`. -/
def removeAllSub (pat l : List Char) : List Char :=
  removeAllSubAux pat (l.length + 1) l

/-- Pie-slice label of the pivot case (app.py:5270):
`col_name.replace('Population', '').replace('Speaker', '').strip()`. -/
def cleanPieLabel (col : String) : String :=
  ⟨pyStrip (removeAllSub "Speaker".data
    (removeAllSub "Population".data col.data))⟩

/-! ### Day-of-week helpers (app.py:5174-5207) -/

/-- `is_day_of_week_column(column_name, question)`; falsy arguments are the
empty string. -/
def is_day_of_week_column (column_name question : String) : Bool :=
  if column_name = "" ∨ question = "" then false
  else
    (["dow", "day_of_week", "dayofweek", "weekday", "day_week"].any
      (fun ind => containsSub ind.data (pyLower column_name).data))
    || (["day of week", "day of the week", "per day", "by day"].any
      (fun ind => containsSub ind.data (pyLower question).data))

/-- Python `s.isdigit()` (ASCII digits). -/
def pyIsDigit (s : String) : Bool := s.data ≠ [] && s.data.all Char.isDigit

/-- `convert_day_number_to_name` (app.py:5174-5188), at its guarded call site
the argument is a non-empty digit string; a non-integer argument falls back
to the input itself through the `except`. -/
def convert_day_number_to_name (day_num : String) : String :=
  if pyIsDigit day_num then
    let n := digitsToNat day_num.data 0
    if n = 1 then "Sunday" else if n = 2 then "Monday"
    else if n = 3 then "Tuesday" else if n = 4 then "Wednesday"
    else if n = 5 then "Thursday" else if n = 6 then "Friday"
    else if n = 7 then "Saturday" else day_num
  else day_num

/-! ### Column selection (app.py:4686-4766).  `select_best_axis_column` asks
the completion collaborator; the oracle argument models that call (`none` =
the chain raised). -/

/-- `is_id_column` (app.py:4750). -/
def is_id_column (column_name : String) : Bool :=
  ["id", "_id", "key", "_key", "pk", "primary"].any
    (fun p => containsSub p.data (pyLower column_name).data)

/-- `select_best_axis_column` (app.py:4686-4748). -/
def select_best_axis_column (oracle : List String → String → Option String)
    (columns : List String) (axis_type : String) : String :=
  match columns with
  | [] => if axis_type = "x" then "category" else "value"
  | [c] => c
  | c0 :: c1 :: cs =>
    let columns := c0 :: c1 :: cs
    let fallback : String :=
      if axis_type = "x" then
        match columns.filter (fun col => ¬is_id_column col) with
        | [] => c0
        | c :: _ => c
      else columns.getLastD c0
    match oracle columns axis_type with
    | some resp =>
      let selected := pyStripStr resp
      if selected ∈ columns then selected else fallback
    | none => fallback

/-- `get_best_column_index` (app.py:4756-4766); `-1` is the "last column"
sentinel. -/
def get_best_column_index (oracle : List String → String → Option String)
    (columns : List String) (axis_type : String) : Int :=
  match columns with
  | [] => if axis_type = "x" then 0 else -1
  | _ :: _ =>
    let best := select_best_axis_column oracle columns axis_type
    if best ∈ columns then (columns.indexOf best : Int)
    else if axis_type = "x" then 0 else -1

/-! ### `format_data_for_chart_type` (app.py:5209-5387) -/

/-- Per-chart-type row caps (app.py:5220-5228). -/
def formatLimit (chart_type : String) : Nat :=
  if chart_type = "pie" then 6 else if chart_type = "bar" then 20
  else if chart_type = "line" then 50 else if chart_type = "scatter" then 100
  else if chart_type = "table" then 50 else 20

/-- A formatted chart record: a dict with at least `label`/`value`, scatter
points add `x`/`y`, and the general case attaches extra columns. -/
structure DataPoint where
  label : String
  value : ℚ
  x : Option ℚ
  y : Option ℚ
  extras : List (String × Cell)
deriving DecidableEq

/-- The pivoted single-row pie conversion (app.py:5266-5272): one slice per
column whose cell is non-null and coerces to a strictly positive float. -/
def pivotSlices (cols : List String) (row : List Cell) : List DataPoint :=
  (cols.zip row).filterMap (fun p =>
    if p.2 ≠ Cell.null ∧ 0 < safe_float p.2 then
      some ⟨cleanPieLabel p.1, safe_float p.2, none, none, []⟩
    else none)

/-- The label-improvement scan of app.py:5330-5346: first matching column
wins; an out-of-range `item[i+1]` is swallowed and the scan continues. -/
def improveLabelAux (item : List Cell) : Nat → List String → Option String
  | _, [] => none
  | i, col :: rest =>
    if i < item.length then
      let col_lower := removeAllSub "c.".data (removeAllSub "b.".data
        (removeAllSub "a.".data (pyLower col).data))
      if containsSub "origin_city".data col_lower ∧ 1 < item.length then
        if i + 1 < item.length then
          some (pyStrCell (item.getD i .null) ++ " → "
            ++ pyStrCell (item.getD (i + 1) .null))
        else improveLabelAux item (i + 1) rest
      else if containsSub "countryname".data col_lower
          ∨ (containsSub "name".data col_lower
              ∧ ¬containsSub "continent".data col_lower) then
        if pyStrCell (item.getD i .null) ≠ ""
            ∧ pyStrCell (item.getD i .null) ≠ "None" then
          some (pyStrCell (item.getD i .null))
        else improveLabelAux item (i + 1) rest
      else improveLabelAux item (i + 1) rest
    else improveLabelAux item (i + 1) rest

/-- The extra-column attachment loop of app.py:5351-5374: skip columns
redundant with the chosen label/value, suffix duplicate names with the index,
convert `Decimal` extras to float. -/
def extrasAux (cols : List String) (label : String) (value : ℚ) :
    Nat → List Cell → List String → List (String × Cell)
  | _, [], _ => []
  | i, val :: rest, added =>
    if i < cols.length then
      let col_name := ⟨removeAllSub "c.".data (removeAllSub "b.".data
        (removeAllSub "a.".data (cols.getD i "").data))⟩
      let original := pyLower col_name
      if (original = "region" ∨ original = "name" ∨ original = "title")
          ∧ pyStrCell val = label then
        extrasAux cols label value (i + 1) rest added
      else if (original = "population" ∨ original = "total"
            ∨ original = "amount" ∨ original = "count")
          ∧ safe_float val = value then
        extrasAux cols label value (i + 1) rest added
      else
        let col_name2 :=
          if pyLower col_name ∈ added then
            col_name ++ "_" ++ (⟨natDigits i⟩ : String) else col_name
        (col_name2, cellOut val)
          :: extrasAux cols label value (i + 1) rest (pyLower col_name2 :: added)
    else extrasAux cols label value (i + 1) rest added

/-- The generic `col_i` extras used when no usable column list is given
(app.py:5376-5384). -/
def genericExtras : Nat → List Cell → List (String × Cell)
  | _, [] => []
  | i, v :: rest =>
    ("col_" ++ (⟨natDigits i⟩ : String), cellOut v) :: genericExtras (i + 1) rest

/-- One row of the general (bar/line/pie/table) formatting loop
(app.py:5290-5386); only rows with at least two fields reach it. -/
def formatRowGeneral (cols? : Option (List String)) (labelIdx valueIdx : Int)
    (isDow : Bool) (item : List Cell) : DataPoint :=
  let label0 :=
    if labelIdx < (item.length : Int) then pyStrCell (item.getD labelIdx.toNat .null)
    else pyStrCell (item.getD 0 .null)
  let label1 :=
    if isDow ∧ pyIsDigit label0 then convert_day_number_to_name label0 else label0
  let value :=
    if 0 ≤ valueIdx ∧ valueIdx < (item.length : Int) then
      safe_float (item.getD valueIdx.toNat .null)
    else if valueIdx = -1 ∧ 0 < item.length then safe_float (item.getLastD .null)
    else safe_float (item.getD 1 .null)
  let label2 :=
    if 3 ≤ item.length ∧ cellIsNumberStr (item.getLastD .null)
        ∧ ¬cellIsNumberStr (item.getD 0 .null)
        ∧ ¬cellIsNumberStr (item.getD 1 .null) then
      pyStrCell (item.getD 0 .null) ++ " → " ++ pyStrCell (item.getD 1 .null)
    else label1
  let label3 :=
    match cols? with
    | some cols =>
      if 1 < cols.length then (improveLabelAux item 0 cols).getD label2
      else label2
    | none => label2
  let extras :=
    match cols? with
    | some cols =>
      if 1 < cols.length then extrasAux cols label3 value 0 item ["label", "value"]
      else genericExtras 2 (item.drop 2)
    | none => genericExtras 2 (item.drop 2)
  ⟨label3, value, none, none, extras⟩

/-- The pivoted single-row pie dispatch (app.py:5254-5261): taken exactly
when the type is pie, the (already capped) data is a single row, a column
list with at least two columns is given, every cell passes the numeric
check, and the row is as wide as the column list. -/
def pivotCase (chart_type : String) (data : List (List Cell))
    (columns : Option (List String)) : Option (List DataPoint) :=
  match columns, data with
  | some cols, [row] =>
    if chart_type = "pie" ∧ 2 ≤ cols.length
        ∧ row.all cellNumericForPivot ∧ row.length = cols.length then
      some (pivotSlices cols row)
    else none
  | _, _ => none

/-- The general bar/line/pie/table loop (app.py:5277-5387): column indices
from the (LLM-backed) selector, then one record per row of width ≥ 2. -/
def generalCase (oracle : List String → String → Option String)
    (question : String) (columns : Option (List String))
    (data : List (List Cell)) : List DataPoint :=
  let labelIdx : Int :=
    match columns with
    | some (c :: cs) => get_best_column_index oracle (c :: cs) "x"
    | _ => 0
  let valueIdx : Int :=
    match columns with
    | some (c :: cs) => get_best_column_index oracle (c :: cs) "y"
    | _ => -1
  let isDow : Bool :=
    match columns with
    | some (c :: cs) =>
      is_day_of_week_column
        (if labelIdx < ((c :: cs).length : Int) then
          (c :: cs).getD labelIdx.toNat "" else c) question
    | _ => false
  data.filterMap (fun item =>
    if 2 ≤ item.length then
      some (formatRowGeneral columns labelIdx valueIdx isDow item)
    else none)

/--
`format_data_for_chart_type(data, chart_type, question, columns)`
(app.py:5209-5387).  `oracle` models the LLM column selection inside
`get_best_column_index`.  Slicing to the cap is written as an unconditional
`take` (identical to the guarded `data[:limit]`).
-/
def format_data_for_chart_type (oracle : List String → String → Option String)
    (data : List (List Cell)) (chart_type : String) (question : String)
    (columns : Option (List String)) : List DataPoint :=
  if data = [] then []
  else
    let d := data.take (formatLimit chart_type)
    if chart_type = "scatter" then
      d.filterMap (fun item =>
        if 3 ≤ item.length then
          some ⟨pyStrCell (item.getD 0 .null), 0,
            some (safe_float (item.getD 1 .null)),
            some (safe_float (item.getD 2 .null)), []⟩
        else none)
    else
      (pivotCase chart_type d columns).getD (generalCase oracle question columns d)

/-! ## Chart pipeline (app.py:4986-5131)

External collaborators are parameters: `parseCfg` models `json.loads` plus
the dict accesses on its result (`none` = `JSONDecodeError` or any shape
error), `genQuery` the query-generation chain (`none` = it raised),
`runQuery` the execution collaborator (`none` = it raised), `axisLabels`
the `generate_axis_labels` helper (which may call the LLM), and `idGen`
the `uuid.uuid4`-based chart id, indexed by the number of charts built. -/

/-- A chart directive configuration (`ctype` is the dict key `"type"`). -/
structure ChartCfg where
  ctype : Option String
  title : Option String
  sql_focus : Option String
  question : Option String
  db : Option String
deriving DecidableEq

/-- A built chart record as returned by `build_chart_from_cfg`. -/
structure ChartData where
  title : String
  x_axis : String
  y_axis : String
  chart_type : String
  data : List DataPoint
  id : Option String
deriving DecidableEq

/-- Python `a or b` on an optional/defaulted string (empty strings are
falsy). -/
def pyOrStr (a : Option String) (b : String) : String :=
  match a with
  | some s => if s = "" then b else s
  | none => b

/-- The chart-type-specific default LIMIT map of app.py:5082-5085. -/
def default_limits (chart_type : String) : Nat :=
  if chart_type = "pie" then 6 else if chart_type = "bar" then 20
  else if chart_type = "line" then 50 else if chart_type = "scatter" then 100
  else if chart_type = "table" then 50 else 50

/-- Chart type of a directive: `cfg.get("type", "bar")`. -/
def cfgChartType (cfg : ChartCfg) : String := cfg.ctype.getD "bar"

/-- Whether the focus text is one of the generic placeholders of
app.py:5071. -/
def genericFocus (s : String) : Bool :=
  pyLower s = "chart" ∨ pyLower s = "charts" ∨ pyLower s = "visualization"

/-- The resolved query focus (app.py:5068-5073): `sql_focus or question or
title`, replaced by the originating question when generic. -/
def cfgFocus (cfg : ChartCfg) (actual_question : Option String) : String :=
  let f0 := pyOrStr cfg.sql_focus (pyOrStr cfg.question (cfg.title.getD "Chart"))
  match actual_question with
  | some aq => if genericFocus f0 ∧ aq ≠ "" then aq else f0
  | none => f0

/-- The chart title after the generic-focus substitution (app.py:5074). -/
def cfgTitle (cfg : ChartCfg) (actual_question : Option String) : String :=
  let f0 := pyOrStr cfg.sql_focus (pyOrStr cfg.question (cfg.title.getD "Chart"))
  match actual_question with
  | some aq =>
    if genericFocus f0 ∧ aq ≠ "" then
      if 50 < aq.length then "Analysis: " ++ pyTake 50 aq ++ "..." else aq
    else cfg.title.getD "Chart"
  | none => cfg.title.getD "Chart"

/--
`build_chart_from_cfg(cfg, database_name, actual_question)`
(app.py:5065-5131): resolve the focus to a query via the generation
collaborator, normalize it with the type-specific cap, execute it, return a
void chart (empty `data`) on one row or less, and otherwise format the rows.
`none` models an exception escaping to the caller's `except` handler.
-/
def build_chart_from_cfg (genQuery : String → Option String)
    (runQuery : String → Option (List (List Cell) × List String))
    (colOracle : List String → String → Option String)
    (axisLabels : String → List String → String → String → String × String)
    (cfg : ChartCfg) (database_name : String) (actual_question : Option String) :
    Option ChartData :=
  let chart_type := cfgChartType cfg
  let title := cfgTitle cfg actual_question
  let query_focus := cfgFocus cfg actual_question
  match genQuery query_focus with
  | none => none
  | some qtext =>
    let query := normalize_query qtext (default_limits chart_type)
    match runQuery query with
    | none => none
    | some (response, cols) =>
      if response.length ≤ 1 then
        some ⟨title, "N/A", "N/A", chart_type, [], none⟩
      else
        some ⟨title, (axisLabels chart_type cols query_focus title).1,
          (axisLabels chart_type cols query_focus title).2, chart_type,
          format_data_for_chart_type colOracle response chart_type
            query_focus (some cols), none⟩

/-! ### The two regexes of the extraction loop -/

/-- Case-insensitive match of the fence opener `"```chart"` at the head. -/
def chartFenceAt : List Char → Bool
  | a :: b :: c :: d :: e :: f :: g :: h :: _ =>
    a = btick && b = btick && c = btick &&
    d.toLower = 'c' && e.toLower = 'h' && f.toLower = 'a' &&
    g.toLower = 'r' && h.toLower = 't'
  | _ => false

/-- Split at the first triple backtick: `(text before, text after it)`. -/
def splitAtTriple : List Char → Option (List Char × List Char)
  | [] => none
  | c :: rest =>
    if startsWithFence (c :: rest) then some ([], (c :: rest).drop 3)
    else
      match splitAtTriple rest with
      | some (before, after) => some (c :: before, after)
      | none => none

/-- `re.findall(r"```chart\s*([\s\S]*?)```", md, DOTALL | IGNORECASE)`
(app.py:4992-4993): at a fence opener, skip the greedy whitespace, capture
lazily up to the first closing fence, and continue after it; with no closing
fence the engine advances one character.  Fuelled by the text length. -/
def findChartBlocksAux : Nat → List Char → List (List Char)
  | 0, _ => []
  | fuel + 1, l =>
    if chartFenceAt l then
      match splitAtTriple ((l.drop 8).dropWhile isSpaceChar) with
      | some (cap, after) => cap :: findChartBlocksAux fuel after
      | none =>
        match l with
        | [] => []
        | _ :: t => findChartBlocksAux fuel t
    else
      match l with
      | [] => []
      | _ :: t => findChartBlocksAux fuel t

/-- The captured chart-directive blocks of a markdown text. -/
def findChartBlocks (markdown : List Char) : List (List Char) :=
  findChartBlocksAux (markdown.length + 1) markdown

/-- Case-insensitive literal prefix match, returning the remainder. -/
def dropPrefixCI : List Char → List Char → Option (List Char)
  | [], l => some l
  | _ :: _, [] => none
  | p :: ps, c :: cs => if c.toLower = p.toLower then dropPrefixCI ps cs else none

/-- Try the substitution pattern
`"```chart" ++ \s* ++ re.escape(block) ++ \s* ++ "```"` at the head of `l`;
on success return the text after the matched region.  The deterministic
whitespace-skipping reading coincides with the regex because a captured
block is empty or starts with a non-whitespace character. -/
def chartPatAt (block l : List Char) : Option (List Char) :=
  if chartFenceAt l then
    match dropPrefixCI block ((l.drop 8).dropWhile isSpaceChar) with
    | some r2 =>
      let r3 := r2.dropWhile isSpaceChar
      if startsWithFence r3 then some (r3.drop 3) else none
    | none => none
  else none

/-- `re.sub(pattern, repl, md, count=1)` for the pattern above: replace the
leftmost occurrence (app.py:5032-5034 and the removal sites). -/
def subFirst (block repl : List Char) : List Char → List Char
  | [] => []
  | c :: t =>
    match chartPatAt block (c :: t) with
    | some after => repl ++ after
    | none => c :: subFirst block repl t

/-- `block_text.startswith("{{")`. -/
def startsDoubleBrace : List Char → Bool
  | a :: b :: _ => a = lbrace && b = lbrace
  | _ => false

/-- `block_text.endswith("}}")`. -/
def endsDoubleBrace (l : List Char) : Bool :=
  match l.reverse with
  | a :: b :: _ => a = rbrace && b = rbrace
  | _ => false

/-- The text handed to `json.loads` (app.py:5003-5007): the stripped block,
with one layer of brace-doubling unwrapped. -/
def directiveText (block : List Char) : String :=
  let bt := pyStrip block
  if startsDoubleBrace bt ∧ endsDoubleBrace bt then ⟨(bt.drop 1).dropLast⟩
  else ⟨bt⟩

/-- The `{{chart:id}}` placeholder (app.py:5033). -/
def placeholderFor (chart_id : String) : List Char :=
  lbrace :: lbrace :: ("chart:".data ++ chart_id.data) ++ [rbrace, rbrace]

/-- The `db`-field defaulting of app.py:5016-5018 (the field itself is never
read again: `build_chart_from_cfg` uses its `database_name` argument). -/
def dbDefault (cfg : ChartCfg) (database_name : String) : ChartCfg :=
  if cfg.db = none then { cfg with db := some database_name } else cfg

/--
One iteration of the extraction loop (app.py:5000-5055) on the state
`(markdown, charts)`: parse the directive, default its `db` field, build the
chart; on success replace the block's leftmost pattern occurrence with a
placeholder and append the chart, on any failure (parse error, raised
resolution, empty data) delete the occurrence.
-/
def processBlock (parseCfg : String → Option ChartCfg)
    (genQuery : String → Option String)
    (runQuery : String → Option (List (List Cell) × List String))
    (colOracle : List String → String → Option String)
    (axisLabels : String → List String → String → String → String × String)
    (idGen : Nat → String) (database_name : String)
    (actual_question : Option String)
    (st : List Char × List ChartData) (block : List Char) :
    List Char × List ChartData :=
  match parseCfg (directiveText block) with
  | none => (subFirst block [] st.1, st.2)
  | some cfg0 =>
    match build_chart_from_cfg genQuery runQuery colOracle axisLabels
        (dbDefault cfg0 database_name) database_name actual_question with
    | none => (subFirst block [] st.1, st.2)
    | some cd =>
      if cd.data ≠ [] then
        let chart_id := idGen st.2.length
        (subFirst block (placeholderFor chart_id) st.1,
         st.2 ++ [{ cd with id := some chart_id }])
      else (subFirst block [] st.1, st.2)

/-- `extract_charts_from_markdown(markdown, database_name, actual_question)`
(app.py:4986-5063). -/
def extract_charts_from_markdown (parseCfg : String → Option ChartCfg)
    (genQuery : String → Option String)
    (runQuery : String → Option (List (List Cell) × List String))
    (colOracle : List String → String → Option String)
    (axisLabels : String → List String → String → String → String × String)
    (idGen : Nat → String) (markdown : String) (database_name : String)
    (actual_question : Option String) : String × List ChartData :=
  let res := (findChartBlocks markdown.data).foldl
    (processBlock parseCfg genQuery runQuery colOracle axisLabels idGen
      database_name actual_question) (markdown.data, [])
  (⟨res.1⟩, res.2)

/-! ### `dbDefault` leaves every field `build_chart_from_cfg` reads alone -/

theorem cfgFocus_dbDefault (cfg : ChartCfg) (dbn : String)
    (aq : Option String) : cfgFocus (dbDefault cfg dbn) aq = cfgFocus cfg aq := by
  cases cfg with
  | mk t ti s q d =>
    rw [dbDefault]
    by_cases h : d = none <;> simp [h, cfgFocus]

theorem cfgTitle_dbDefault (cfg : ChartCfg) (dbn : String)
    (aq : Option String) : cfgTitle (dbDefault cfg dbn) aq = cfgTitle cfg aq := by
  cases cfg with
  | mk t ti s q d =>
    rw [dbDefault]
    by_cases h : d = none <;> simp [h, cfgTitle]

theorem cfgChartType_dbDefault (cfg : ChartCfg) (dbn : String) :
    cfgChartType (dbDefault cfg dbn) = cfgChartType cfg := by
  cases cfg with
  | mk t ti s q d =>
    rw [dbDefault]
    by_cases h : d = none <;> simp [h, cfgChartType]

/-! ### Claim C2 -/

/--
C2: a chart directive whose resolved query executes successfully but returns
one row or zero rows is void: `build_chart_from_cfg` returns a record with
empty `data`, and the extraction loop appends no ChartRecord for it and
deletes its fenced block (the leftmost occurrence of its substitution
pattern) from the markdown, whatever the current loop state is.
-/
theorem void_chart_excluded (parseCfg : String → Option ChartCfg)
    (genQuery : String → Option String)
    (runQuery : String → Option (List (List Cell) × List String))
    (colOracle : List String → String → Option String)
    (axisLabels : String → List String → String → String → String × String)
    (idGen : Nat → String) (database_name : String)
    (actual_question : Option String) (block : List Char) (cfg0 : ChartCfg)
    (qtext : String) (rows : List (List Cell)) (cols : List String)
    (hparse : parseCfg (directiveText block) = some cfg0)
    (hgen : genQuery (cfgFocus cfg0 actual_question) = some qtext)
    (hrun : runQuery (normalize_query qtext
        (default_limits (cfgChartType cfg0))) = some (rows, cols))
    (hrows : rows.length ≤ 1) :
    build_chart_from_cfg genQuery runQuery colOracle axisLabels
        (dbDefault cfg0 database_name) database_name actual_question
      = some ⟨cfgTitle cfg0 actual_question, "N/A", "N/A",
          cfgChartType cfg0, [], none⟩
    ∧ ∀ st : List Char × List ChartData,
        processBlock parseCfg genQuery runQuery colOracle axisLabels idGen
            database_name actual_question st block
          = (subFirst block [] st.1, st.2) := by
  have hbuild : build_chart_from_cfg genQuery runQuery colOracle axisLabels
      (dbDefault cfg0 database_name) database_name actual_question
        = some ⟨cfgTitle cfg0 actual_question, "N/A", "N/A",
            cfgChartType cfg0, [], none⟩ := by
    rw [build_chart_from_cfg, cfgFocus_dbDefault, cfgTitle_dbDefault,
      cfgChartType_dbDefault, hgen]
    simp only [hrun, if_pos hrows]
  refine ⟨hbuild, ?_⟩
  intro st
  rw [processBlock]
  simp only [hparse, hbuild]
  simp

/-- Witness for C2: a one-row result produces no chart and the block's
occurrence is deleted from the markdown. -/
theorem void_chart_excluded_witness :
    (∀ st : List Char × List ChartData,
      processBlock (fun _ => some ⟨some "bar", some "T", some "focus", none, none⟩)
          (fun _ => some "SELECT x FROM t")
          (fun _ => some ([[Cell.int 5]], ["x"]))
          (fun _ _ => none) (fun _ _ _ _ => ("", "")) (fun _ => "chart_0")
          "db" none st ("B".data)
        = (subFirst ("B".data) [] st.1, st.2))
    ∧ subFirst ("B".data) [] ("md ```chart B``` tail".data) = "md  tail".data :=
  ⟨(void_chart_excluded (fun _ => some ⟨some "bar", some "T", some "focus", none, none⟩)
      (fun _ => some "SELECT x FROM t") (fun _ => some ([[Cell.int 5]], ["x"]))
      (fun _ _ => none) (fun _ _ _ _ => ("", "")) (fun _ => "chart_0")
      "db" none ("B".data) ⟨some "bar", some "T", some "focus", none, none⟩
      "SELECT x FROM t" [[Cell.int 5]] ["x"]
      rfl rfl rfl (by decide)).2,
   by decide⟩

/-! ### Claim C4 -/

/--
C4 (amended): for every block found in the markdown, each extraction step
either replaces the leftmost occurrence of the block's substitution pattern
with a `{{chart:id}}` placeholder carrying the fresh id of the one
ChartRecord it appends, or deletes that occurrence and appends nothing.
The original claim's final guarantee — raw directive text is never visible
in the returned markdown — fails, because deleting a block splices its
surrounding text, which can itself form a new fenced chart directive.
-/
theorem extract_step_replaces_or_removes (parseCfg : String → Option ChartCfg)
    (genQuery : String → Option String)
    (runQuery : String → Option (List (List Cell) × List String))
    (colOracle : List String → String → Option String)
    (axisLabels : String → List String → String → String → String × String)
    (idGen : Nat → String) (database_name : String)
    (actual_question : Option String)
    (st : List Char × List ChartData) (block : List Char) :
    (∃ cd : ChartData,
      cd.id = some (idGen st.2.length)
      ∧ processBlock parseCfg genQuery runQuery colOracle axisLabels idGen
          database_name actual_question st block
        = (subFirst block (placeholderFor (idGen st.2.length)) st.1,
           st.2 ++ [cd]))
    ∨ processBlock parseCfg genQuery runQuery colOracle axisLabels idGen
        database_name actual_question st block
      = (subFirst block [] st.1, st.2) := by
  rw [processBlock]
  cases hp : parseCfg (directiveText block) with
  | none => right; rfl
  | some cfg0 =>
    cases hb : build_chart_from_cfg genQuery runQuery colOracle axisLabels
        (dbDefault cfg0 database_name) database_name actual_question with
    | none =>
      right
      simp [hb]
    | some cd =>
      by_cases hd : cd.data = []
      · right
        simp [hb, hd]
      · left
        refine ⟨{ cd with id := some (idGen st.2.length) }, rfl, ?_⟩
        simp [hb, hd]

/--
C4 counterexample: with a directive that fails to parse, extraction deletes
the found block `x`, but the splice leaves the fenced directive
`"```chart y```"` fully visible in the returned markdown — which the block
scanner itself still recognizes as a chart directive.
-/
theorem directive_text_left_visible :
    (extract_charts_from_markdown (fun _ => none) (fun _ => none)
        (fun _ => none) (fun _ _ => none) (fun _ _ _ _ => ("", ""))
        (fun _ => "chart_0") "`````chart x````chart y```" "db" none).1
      = "```chart y```"
    ∧ findChartBlocks ((extract_charts_from_markdown (fun _ => none)
        (fun _ => none) (fun _ => none) (fun _ _ => none)
        (fun _ _ _ _ => ("", "")) (fun _ => "chart_0")
        "`````chart x````chart y```" "db" none).1).data ≠ [] :=
  ⟨by decide, by decide⟩

/-! ### Claim C7 -/

theorem format_pivot_eq (oracle : List String → String → Option String)
    (row : List Cell) (cols : List String) (question : String)
    (hcols : 2 ≤ cols.length) (hlen : row.length = cols.length)
    (hnum : row.all cellNumericForPivot = true) :
    format_data_for_chart_type oracle [row] "pie" question (some cols)
      = pivotSlices cols row := by
  have hpc : pivotCase "pie" [row] (some cols) = some (pivotSlices cols row) := by
    simp only [pivotCase]
    simp [hcols, hnum, hlen]
  rw [format_data_for_chart_type]
  rw [if_neg (by simp)]
  have htake : List.take (formatLimit "pie") [row] = [row] := by
    apply List.take_of_length_le
    simp [formatLimit]
  simp only [htake]
  rw [if_neg (by decide), hpc]
  rfl

/--
C7 (amended): in the pivoted single-row pie case (pie type, exactly one
result row, at least two columns, every cell numeric in the sense of the
code's check, row and column counts equal), the formatter produces one slice
per column whose cell is non-null and coerces to a strictly positive float,
with label the column name stripped of the substrings `Population` and
`Speaker` and of surrounding whitespace — not the raw column name — and
value the coerced cell.  Scenario D is the witness.
-/
theorem pivot_pie_format (oracle : List String → String → Option String)
    (row : List Cell) (cols : List String) (question : String)
    (hcols : 2 ≤ cols.length) (hlen : row.length = cols.length)
    (hnum : row.all cellNumericForPivot = true) :
    format_data_for_chart_type oracle [row] "pie" question (some cols)
      = (cols.zip row).filterMap (fun p =>
          if p.2 ≠ Cell.null ∧ 0 < safe_float p.2 then
            some ⟨cleanPieLabel p.1, safe_float p.2, none, none, []⟩
          else none) :=
  format_pivot_eq oracle row cols question hcols hlen hnum

/-- Witness for C7, scenario D: one row `(english=120, spanish=80)` formats
to the two expected slices. -/
theorem pivot_pie_format_witness :
    format_data_for_chart_type (fun _ _ => none)
        [[Cell.int 120, Cell.int 80]] "pie" "languages"
        (some ["english", "spanish"])
      = [⟨"english", 120, none, none, []⟩, ⟨"spanish", 80, none, none, []⟩] :=
  (pivot_pie_format (fun _ _ => none) [Cell.int 120, Cell.int 80]
      ["english", "spanish"] "languages" (by decide) (by decide)
      (by decide)).trans (by decide)

/--
C7 counterexample: with columns `["FrenchPopulation", "spanish"]` and the
single all-numeric row `(120, 0)`, the formatter emits one slice labelled
`"French"` — the zero cell is dropped and the `Population` substring is
stripped from the label — instead of the claimed one-slice-per-column
records `{label: columnName, value: cell}`.
-/
theorem pivot_pie_format_counterexample :
    format_data_for_chart_type (fun _ _ => none)
        [[Cell.int 120, Cell.int 0]] "pie" "q"
        (some ["FrenchPopulation", "spanish"])
      = [⟨"French", 120, none, none, []⟩]
    ∧ format_data_for_chart_type (fun _ _ => none)
        [[Cell.int 120, Cell.int 0]] "pie" "q"
        (some ["FrenchPopulation", "spanish"])
      ≠ [⟨"FrenchPopulation", 120, none, none, []⟩,
         ⟨"spanish", 0, none, none, []⟩] :=
  ⟨by decide, by decide⟩

/-! ### Claim C10 -/

/--
C10: in the pivoted single-row pie case a column contributes a slice only
when its cell is non-null and coerces to a strictly positive float: every
emitted slice has positive value and stems from such a column, and the
number of slices never exceeds — and can be smaller than — the number of
columns.
-/
theorem pivot_pie_positive_slices (oracle : List String → String → Option String)
    (row : List Cell) (cols : List String) (question : String)
    (hcols : 2 ≤ cols.length) (hlen : row.length = cols.length)
    (hnum : row.all cellNumericForPivot = true) :
    (∀ dp ∈ format_data_for_chart_type oracle [row] "pie" question (some cols),
      0 < dp.value
      ∧ ∃ p ∈ cols.zip row, p.2 ≠ Cell.null ∧ 0 < safe_float p.2
          ∧ dp = ⟨cleanPieLabel p.1, safe_float p.2, none, none, []⟩)
    ∧ (format_data_for_chart_type oracle [row] "pie" question
        (some cols)).length ≤ cols.length := by
  rw [format_pivot_eq oracle row cols question hcols hlen hnum]
  constructor
  · intro dp hdp
    rw [pivotSlices] at hdp
    obtain ⟨p, hp, hf⟩ := List.mem_filterMap.mp hdp
    by_cases hcond : p.2 ≠ Cell.null ∧ 0 < safe_float p.2
    · rw [if_pos hcond] at hf
      obtain rfl := Option.some.inj hf
      exact ⟨hcond.2, p, hp, hcond.1, hcond.2, rfl⟩
    · rw [if_neg hcond] at hf
      exact absurd hf (by simp)
  · calc (pivotSlices cols row).length
        ≤ (cols.zip row).length := List.length_filterMap_le _ _
      _ ≤ cols.length := by
          rw [List.length_zip]
          exact min_le_left _ _

/-- Witness for C10: of the three columns `(a=2, b=0, c=NULL)`, only `a`
yields a slice, so there is one slice for three columns. -/
theorem pivot_pie_positive_slices_witness :
    (∀ dp ∈ format_data_for_chart_type (fun _ _ => none)
        [[Cell.int 2, Cell.int 0, Cell.null]] "pie" "q"
        (some ["a", "b", "c"]),
      0 < dp.value
      ∧ ∃ p ∈ (["a", "b", "c"] : List String).zip
            [Cell.int 2, Cell.int 0, Cell.null],
          p.2 ≠ Cell.null ∧ 0 < safe_float p.2
            ∧ dp = ⟨cleanPieLabel p.1, safe_float p.2, none, none, []⟩)
    ∧ (format_data_for_chart_type (fun _ _ => none)
        [[Cell.int 2, Cell.int 0, Cell.null]] "pie" "q"
        (some ["a", "b", "c"])).length ≤ 3
    ∧ format_data_for_chart_type (fun _ _ => none)
        [[Cell.int 2, Cell.int 0, Cell.null]] "pie" "q"
        (some ["a", "b", "c"]) = [⟨"a", 2, none, none, []⟩] :=
  ⟨(pivot_pie_positive_slices (fun _ _ => none)
      [Cell.int 2, Cell.int 0, Cell.null] ["a", "b", "c"] "q"
      (by decide) (by decide) (by decide)).1,
   (pivot_pie_positive_slices (fun _ _ => none)
      [Cell.int 2, Cell.int 0, Cell.null] ["a", "b", "c"] "q"
      (by decide) (by decide) (by decide)).2,
   by decide⟩

end AinsightSpec
